import Mathlib

set_option linter.unusedVariables false

/-!
Verification of the spice_craft parsing core (crates/core) against its
natural-language specification.  The Rust sources are shallowly embedded:

* machine floats (`f64`) are modelled as rationals (`ℚ`): every numeric
  literal the claims touch is decimal, so the rational value is the value
  the Rust code denotes;
* byte offsets into UTF-8 strings are modelled as character offsets
  (`List Char` indices); they coincide on ASCII input, and every input a
  claim mentions is ASCII;
* a Rust `panic!`/`todo!()`/`unwrap()` failure is modelled as the `none`
  of an `Option` wrapped around the function's result.
-/

namespace Spice

/-- `Atom` from ast/mod.rs: a lexed source-text span.  Equality in the Rust
code compares `raw` only; the positional fields are carried unchanged. -/
structure Atom where
  raw : String
  column : Nat × Nat
  line : Nat
deriving Repr, DecidableEq

/-- `PartialEq for Atom` from ast/mod.rs: equality over `raw` only. -/
def Atom.beqRaw (a b : Atom) : Bool := a.raw == b.raw

/-- `ParseError` from parse.rs. -/
structure ParseError where
  reason : String
  position : Option (Nat × Nat)
deriving Repr, DecidableEq

/-! ## Lexer (lexer.rs) -/

/-- `SPECIAL_CHARS` from lexer.rs: `)(][}{=:*<>!~&|+-^/`. -/
def specialChars : List Char :=
  [')', '(', ']', '[', '\x7d', '\x7b', '=', ':', '*', '<', '>', '!', '~', '&', '|', '+', '-', '^', '/']

def isSpecialChar (c : Char) : Bool := specialChars.contains c

/-- The scanner state of `SpiceLexer::tokenize`'s per-line loop:
accumulated `(start, end)` spans, the current token start, the `skip`
flag used after a two-character operator, and the in-quote flag. -/
structure LexState where
  tokens : List (Nat × Nat)
  start : Nat
  skip : Bool
  is_quote : Bool
deriving Repr, DecidableEq

/-- The `is_inside_number` test of lexer.rs lines 120-138: the run
`line[start..j]` begins with a digit or `.`, ends with `e`/`E`, the current
character is `+`/`-`, and the character after it is a decimal digit. -/
def optCheck (f : Char → Bool) : Option Char → Bool
  | some d => f d
  | none => false

def isInsideNumber (line : List Char) (start j : Nat) (c : Char) : Bool :=
  let previous_chars := (line.drop start).take (j - start)
  let is_start_with_dot_or_digit :=
    optCheck (fun d => d == '.' || d.isDigit) previous_chars.head?
  let is_after_e :=
    optCheck (fun d => d == 'e' || d == 'E') previous_chars.getLast?
  let is_plus_or_minus := c == '+' || c == '-'
  let is_followed_by_number :=
    optCheck (fun d => d.isDigit) (line.get? (j + 1))
  is_start_with_dot_or_digit && is_after_e && is_plus_or_minus && is_followed_by_number

/-- The two-character operators tried first for a special character. -/
def twoCharOps : List String := ["!=", "==", "<=", ">=", "**"]

/-- One iteration of the `for (j, c) in line.char_indices()` loop of
`SpiceLexer::tokenize`.  A Rust `continue` is returning the state
unchanged (or with only the documented flag flipped). -/
def lexStep (line : List Char) (j : Nat) (c : Char) (s : LexState) : LexState :=
  if s.skip = true then { s with skip := false }
  else if c = '"' then
    if s.is_quote = true then
      { s with tokens := s.tokens ++ [(s.start - 1, j + 1)], is_quote := false, start := j + 1 }
    else
      { s with is_quote := true, start := j + 1 }
  else if s.is_quote = true then s
  else
    let is_whitespace := c.isWhitespace || c == ','
    let is_special_char := isSpecialChar c
    if (is_whitespace || is_special_char) = true ∧ s.start < j
        ∧ isInsideNumber line s.start j c = true then
      s
    else
      let s1 :=
        if (is_whitespace || is_special_char) = true ∧ s.start < j then
          { s with tokens := s.tokens ++ [(s.start, j)] }
        else s
      let s2 :=
        if is_special_char = true then
          let next_2_chars := String.mk ((line.drop j).take 2)
          if twoCharOps.contains next_2_chars = true then
            { s1 with tokens := s1.tokens ++ [(j, j + 2)], start := j + 2, skip := true }
          else
            { s1 with tokens := s1.tokens ++ [(j, j + 1)], start := j + 1 }
        else s1
      if is_whitespace = true then { s2 with start := j + 1 } else s2

/-- Run the scanner over a whole line and close the trailing token, as
lexer.rs lines 88-172 do. -/
def scanLine (line : List Char) : List (Nat × Nat) :=
  let s := line.enum.foldl (fun st p => lexStep line p.1 p.2 st)
    { tokens := [], start := 0, skip := false, is_quote := false }
  if s.start < line.length then s.tokens ++ [(s.start, line.length)] else s.tokens

def slice (line : List Char) (st ed : Nat) : String :=
  String.mk ((line.drop st).take (ed - st))

/-- Tokenize one physical line (lexer.rs lines 73-178): a line whose
trimmed text starts with `*` is a comment and yields nothing; otherwise the
part before the first `;` is scanned. -/
def tokenizeLine (loc : Nat) (l : List Char) : List Atom :=
  if (match l.dropWhile Char.isWhitespace with
      | c :: _ => c == '*'
      | [] => false) then []
  else
    let line := l.takeWhile (fun c => c != ';')
    (scanLine line).map (fun se => { raw := slice line se.1 se.2, column := (se.1, se.2), line := loc })

/-- Rust `str::lines`: split on newline, dropping a final empty segment and
any trailing carriage return of a segment. -/
def splitOnChar (c : Char) : List Char → List (List Char)
  | [] => [[]]
  | x :: xs =>
    if x == c then [] :: splitOnChar c xs
    else
      match splitOnChar c xs with
      | [] => [[x]]
      | l :: ls => (x :: l) :: ls

def rustLines (s : String) : List (List Char) :=
  let ls := splitOnChar '\n' s.toList
  let ls := if ls.getLast? = some [] then ls.dropLast else ls
  ls.map (fun l => if l.getLast? = some '\r' then l.dropLast else l)

/-- Is the line a continuation line: its first token's raw text is `+`
(lexer.rs line 42). -/
def isCont (l : List Atom) : Bool :=
  match l.head? with
  | some a => a.raw == "+"
  | none => false

/-- `MergeLinesIter` from lexer.rs: the accumulated current line plus the
remaining iterator.  Each step extends the accumulated line with the tails
of the following continuation lines. -/
def mergeLinesAux : List Atom → List (List Atom) → List (List Atom)
  | acc, [] => [acc]
  | acc, l :: rest =>
    if isCont l then mergeLinesAux (acc ++ l.drop 1) rest
    else acc :: mergeLinesAux l rest

/-- `merge_lines` over a finished list of lines (empty input gives no
lines, matching `MergeLinesIter` with `last = None`). -/
def mergeLines : List (List Atom) → List (List Atom)
  | [] => []
  | l :: rest => mergeLinesAux l rest

/-- `SpiceLexer::tokenize`: per-line tokenization, empty lines dropped,
continuation lines merged. -/
def tokenize (code : String) : List (List Atom) :=
  mergeLines (((rustLines code).enum.map (fun p => tokenizeLine p.1 p.2)).filter
    (fun x => !x.isEmpty))

/-! ## Value parser (value.rs)

`SuffixNumberParser::to_number` lowercases its input and runs
`alt((tuple(double, parse_suffix), double))`.  nom's `double` is
deterministic, so the alternation is equivalent to: parse a leading float,
then an optional suffix; any remaining characters are ignored.  nom's
`inf`/`nan` forms are not modelled (no suffix or claim involves them).

An `f64` value is modelled exactly: every quantity the parser builds
(decimal literal, power-of-ten exponent, engineering-suffix factor) is of
the form `m * 10^e`, kept as the pair `(m, e) : Int × Int` so that the
parser computes by kernel reduction; `DecNum.val` reads the pair as the
rational it denotes. -/

abbrev DecNum := Int × Int

/-- The rational value `m * 10^e` a `DecNum` denotes. -/
def DecNum.val (d : DecNum) : ℚ := (d.1 : ℚ) * (10 : ℚ) ^ d.2

/-- `x.0 * x.1.factor()`: multiplication of decimal quantities. -/
def DecNum.mul (a b : DecNum) : DecNum := (a.1 * b.1, a.2 + b.2)

def DecNum.neg (a : DecNum) : DecNum := (-a.1, a.2)

def digitsToNat (ds : List Char) : Nat :=
  ds.foldl (fun n d => n * 10 + (d.toNat - '0'.toNat)) 0

/-- The optional exponent part of nom's `double`: `e`/`E`, an optional
sign, then digits; consumed only when the digits are present. -/
def parseExpPart (v : DecNum) (cs : List Char) : DecNum × List Char :=
  match cs with
  | e :: t =>
    if e == 'e' || e == 'E' then
      let (esgn, t1) : Int × List Char :=
        match t with
        | '+' :: u => (1, u)
        | '-' :: u => (-1, u)
        | _ => (1, t)
      let (ds, t2) := t1.span Char.isDigit
      if ds.isEmpty then (v, cs)
      else ((v.1, v.2 + esgn * (digitsToNat ds : Int)), t2)
    else (v, cs)
  | [] => (v, cs)

/-- nom's `double` on a character list: optional sign, then
`digits [. digits*]` or `. digits+`, then the optional exponent.  The
mantissa `i.f` is the pair `(i * 10^k + f, -k)` with `k` the number of
fraction digits. -/
def parseDouble (cs : List Char) : Option (DecNum × List Char) :=
  let (sgn, cs1) : Int × List Char :=
    match cs with
    | '+' :: t => (1, t)
    | '-' :: t => (-1, t)
    | _ => (1, cs)
  let (ip, cs2) := cs1.span Char.isDigit
  if ip.isEmpty then
    match cs2 with
    | '.' :: t =>
      let (fp, cs3) := t.span Char.isDigit
      if fp.isEmpty then none
      else some (parseExpPart (sgn * (digitsToNat fp : Int), -(fp.length : Int)) cs3)
    | _ => none
  else
    match cs2 with
    | '.' :: t =>
      let (fp, cs3) := t.span Char.isDigit
      some (parseExpPart
        (sgn * ((digitsToNat ip : Int) * (10 : Int) ^ fp.length + (digitsToNat fp : Int)),
         -(fp.length : Int)) cs3)
    | _ => some (parseExpPart (sgn * (digitsToNat ip : Int), 0) cs2)

/-- `Suffix` from value.rs (the engineering suffixes). -/
inductive EngSuffix where
  | Tera | Giga | Mega | Kilo | Mil | Milli | Micro | Nano | Pico | Femto | Atto
deriving Repr, DecidableEq

/-- `Suffix::factor` from value.rs; `Mil` is `25.4e-6`. -/
def EngSuffix.factor : EngSuffix → DecNum
  | .Tera => (1, 12)
  | .Giga => (1, 9)
  | .Mega => (1, 6)
  | .Kilo => (1, 3)
  | .Mil => (254, -7)
  | .Milli => (1, -3)
  | .Micro => (1, -6)
  | .Nano => (1, -9)
  | .Pico => (1, -12)
  | .Femto => (1, -15)
  | .Atto => (1, -18)

/-- The tag list of `parse_suffix` from value.rs, in the exact `alt` order:
`t, g, meg, k, mil, m, u, n, p, f, a`. -/
def suffixTags : List (EngSuffix × List Char) :=
  [(.Tera, ['t']), (.Giga, ['g']), (.Mega, ['m', 'e', 'g']), (.Kilo, ['k']),
   (.Mil, ['m', 'i', 'l']), (.Milli, ['m']), (.Micro, ['u']), (.Nano, ['n']),
   (.Pico, ['p']), (.Femto, ['f']), (.Atto, ['a'])]

def stripTag : List Char → List Char → Option (List Char)
  | [], cs => some cs
  | _ :: _, [] => none
  | t :: ts, c :: cs => if c == t then stripTag ts cs else none

def matchSuffixTags : List (EngSuffix × List Char) → List Char → Option (EngSuffix × List Char)
  | [], _ => none
  | (s, tag) :: rest, cs =>
    match stripTag tag cs with
    | some cs' => some (s, cs')
    | none => matchSuffixTags rest cs

/-- `parse_suffix` from value.rs: the first tag of `suffixTags` that is a
prefix of the input wins. -/
def parse_suffix (cs : List Char) : Option (EngSuffix × List Char) :=
  matchSuffixTags suffixTags cs

/-- `SuffixNumberParser::to_number`: lowercase, leading float, optional
suffix, remainder ignored; `none` models the `Err` case. -/
def to_number (n : String) : Option DecNum :=
  let low := n.toList.map Char.toLower
  match parseDouble low with
  | none => none
  | some (v, rest) =>
    match parse_suffix rest with
    | some (sfx, _) => some (v.mul sfx.factor)
    | none => some v

/-! ## Token-stream combinator framework (parse.rs)

A grammar rule over the line cursor (`SpiceLineParser`: a fixed token
vector plus a `position`, `Snapshot::State = usize`) is modelled as a pure
function from the position to either a value and the new position or a
`ParseError`.  The token vector is baked into the function. -/

def FieldParser (α : Type) : Type := Nat → Except ParseError (α × Nat)

/-- `TryParse<Option<T>>` from parse.rs lines 203-217: snapshot, attempt
`T`, on failure restore the snapshot and yield `None`. -/
def tryParseOption {α : Type} (p : FieldParser α) (pos : Nat) :
    Except ParseError (Option α × Nat) :=
  match p pos with
  | .ok (v, pos') => .ok (some v, pos')
  | .error _ => .ok (none, pos)

/-- The `while let Ok(value) = self.try_parse()` loop of
`TryParse<Vec<T>>` (parse.rs lines 219-233), with explicit fuel: `none`
models the loop still running (the Rust loop has no bound of its own). -/
def tryParseVecAux {α : Type} (p : FieldParser α) :
    Nat → List α → Nat → Option (List α × Nat)
  | 0, _, _ => none
  | fuel + 1, acc, pos =>
    match p pos with
    | .ok (v, pos') => tryParseVecAux p fuel (acc ++ [v]) pos'
    | .error _ => some (acc, pos)

/-- `TryParse<Vec<T>>`: greedy accumulation, the cursor restored to the
snapshot taken after the last successful element. -/
def tryParseVec {α : Type} (p : FieldParser α) (fuel pos : Nat) :
    Option (List α × Nat) :=
  tryParseVecAux p fuel [] pos

/-- Spec-side description of the `Vec<T>` contract: the values are the
successful parses in sequence and the final position is the one reached by
the last success, the next attempt being the first failure. -/
inductive VecChain {α : Type} (p : FieldParser α) : Nat → List α → Nat → Prop where
  | stop {pos : Nat} {e : ParseError} : p pos = .error e → VecChain p pos [] pos
  | step {pos pos' pos'' : Nat} {v : α} {vs : List α} :
      p pos = .ok (v, pos') → VecChain p pos' vs pos'' → VecChain p pos (v :: vs) pos''

/-! ## Partial-parse engine (spice_proc-macro lib.rs, `partial_parse_derive`)

The derive expands, for a record with fields `f₁ … fₙ` in declaration
order, into a straight-line sequence of guarded blocks sharing the flags
`is_eof : bool` and `position : u32` (lib.rs lines 345-361): when
`is_eof` is not yet set the counter is incremented and the field parsed;
`Ok` stores `Some`, an error whose reason contains `"EOF"` sets `is_eof`
and stores `None`, any other error propagates; once `is_eof` is set every
remaining field is `None`.  The heterogeneous field values are abstracted
to one type `α` (the claims concern only per-field presence), and the
straight-line sequence is the fold below over the field-parser list.
`try_partial` and `info` expand to the same field walk. -/

def listHasPrefixC : List Char → List Char → Bool
  | [], _ => true
  | _ :: _, [] => false
  | p :: ps, c :: cs => p == c && listHasPrefixC ps cs

def listHasInfixC (pat : List Char) : List Char → Bool
  | [] => pat.isEmpty
  | c :: cs => listHasPrefixC pat (c :: cs) || listHasInfixC pat cs

/-- `e.reason.contains("EOF")` from the derive's expansion. -/
def reasonHasEOF (e : ParseError) : Bool :=
  listHasInfixC ['E', 'O', 'F'] e.reason.toList

def partialRunAux {α : Type} : List (FieldParser α) → Nat → Bool → Nat →
    Except ParseError (List (Option α) × Nat)
  | [], _, _, posn => .ok ([], posn)
  | f :: fs, pos, is_eof, posn =>
    if is_eof then
      (partialRunAux fs pos true posn).map (fun r => (none :: r.1, r.2))
    else
      match f pos with
      | .ok (v, pos') =>
        (partialRunAux fs pos' false (posn + 1)).map (fun r => (some v :: r.1, r.2))
      | .error e =>
        if reasonHasEOF e then
          (partialRunAux fs pos true (posn + 1)).map (fun r => (none :: r.1, r.2))
        else .error e

/-- The whole generated `try_partial` body: `is_eof = false`,
`position = 0`, then the field walk; the result is the per-field
`Option` column plus the `position` counter. -/
def partialRun {α : Type} (fields : List (FieldParser α)) (pos : Nat) :
    Except ParseError (List (Option α) × Nat) :=
  partialRunAux fields pos false 0

/-- Spec-side description of a partial-parse outcome: fields succeed in
declaration order until one fails with an EOF error, and that field and
every later one report `None`. -/
inductive PartialSpec {α : Type} : List (FieldParser α) → Nat → List (Option α) → Prop where
  | nil {pos : Nat} : PartialSpec [] pos []
  | ok {f : FieldParser α} {fs : List (FieldParser α)} {pos pos' : Nat} {v : α}
      {out : List (Option α)} :
      f pos = .ok (v, pos') → PartialSpec fs pos' out →
      PartialSpec (f :: fs) pos (some v :: out)
  | eofStop {f : FieldParser α} {fs : List (FieldParser α)} {pos : Nat} {e : ParseError} :
      f pos = .error e → reasonHasEOF e = true →
      PartialSpec (f :: fs) pos (none :: fs.map (fun _ => none))

/-! ## Line-cursor primitives (parse.rs `TokenStream`) -/

def ParseError.unexpectedEof (position : Option (Nat × Nat)) : ParseError :=
  { reason := "Unexpected EOF", position := position }

def ParseError.unexpected (expect actual : String) (position : Option (Nat × Nat)) : ParseError :=
  { reason := "Expect `" ++ expect ++ "', found `" ++ actual ++ "'", position := position }

def upperAscii (s : String) : String := String.mk (s.toList.map Char.toUpper)

/-- `str::starts_with`, on the character list (kernel-evaluable form of
`String.startsWith`, which they agree with on any string). -/
def strStartsWith (s pre : String) : Bool := pre.toList.isPrefixOf s.toList

/-- `TokenStream::token`: the current token, `Unexpected EOF` past the end. -/
def tokenAt (ts : List Atom) (pos : Nat) : Except ParseError Atom :=
  match ts.get? pos with
  | some t => .ok t
  | none => .error (ParseError.unexpectedEof none)

/-- `TokenStream::matches`: case-insensitive comparison of the current
token's raw text. -/
def matchesTok (ts : List Atom) (pos : Nat) (m : String) : Bool :=
  match ts.get? pos with
  | some t => upperAscii t.raw == upperAscii m
  | none => false

/-- `TokenStream::expect`: consume the current token or error. -/
def expectTok (ts : List Atom) (pos : Nat) (m : String) : Except ParseError (Atom × Nat) :=
  match tokenAt ts pos with
  | .error e => .error e
  | .ok t =>
    if upperAscii t.raw != upperAscii m then
      .error (ParseError.unexpected m t.raw (some t.column))
    else .ok (t, pos + 1)

/-! ## AST wrappers (ast/mod.rs) -/

/-- `Name(pub Atom)`. -/
structure Name where
  atom : Atom
deriving Repr, DecidableEq

/-- `PartialEq for Name` derives through `Atom`: raw text only. -/
def Name.beqRaw (a b : Name) : Bool := a.atom.raw == b.atom.raw

/-- `Node(pub Atom)`. -/
structure Node where
  atom : Atom
deriving Repr, DecidableEq

/-- `ExplicitNode(pub Node)`. -/
structure ExplicitNode where
  node : Node
deriving Repr, DecidableEq

/-- `Text(pub Atom)` from ast/expression.rs. -/
structure Text where
  atom : Atom
deriving Repr, DecidableEq

/-- `[a-zA-Z][a-zA-Z0-9_]*`, the acceptance test of `TryParse<Name>`. -/
def isValidName (s : String) : Bool :=
  match s.toList with
  | c :: rest => c.isAlpha && rest.all (fun x => x.isAlphanum || x == '_')
  | [] => false

/-- `TryParse<Name>` from ast/mod.rs lines 217-236. -/
def parseName (ts : List Atom) (pos : Nat) : Except ParseError (Name × Nat) :=
  match tokenAt ts pos with
  | .error e => .error e
  | .ok t =>
    if isValidName t.raw then .ok ({ atom := t }, pos + 1)
    else .error { reason := "Expect `" ++ t.raw ++ "' to be a name", position := some t.column }

/-! ## Expression AST (ast/expression.rs) -/

/-- `Literal` from ast/expression.rs: the parsed numeric value (`f64`
modelled as an exact decimal `DecNum`). -/
structure Literal where
  value : DecNum
deriving Repr, DecidableEq

/-- `Ident(pub Name)`. -/
structure Ident where
  name : Name
deriving Repr, DecidableEq

mutual
inductive Factor1 where
  | Parenthesis (e : Expr)
  | Ident (i : Spice.Ident)
  | Call (name : Spice.Ident) (args : List Expr)
  | Literal (l : Spice.Literal)
inductive Factor2 where
  | Base (f : Factor1)
  | Pos (f : Factor2)
  | Neg (f : Factor2)
  | Not (f : Factor2)
inductive Factor3 where
  | Base (f : Factor2)
  | Pow (a : Factor2) (b : Factor3)
inductive Factor4 where
  | Base (f : Factor3)
  | Mul (a : Factor4) (b : Factor3)
  | Div (a : Factor4) (b : Factor3)
inductive Factor5 where
  | Base (f : Factor4)
  | Add (a : Factor5) (b : Factor4)
  | Sub (a : Factor5) (b : Factor4)
inductive Factor6 where
  | Base (f : Factor5)
  | And (a : Factor6) (b : Factor5)
inductive Factor7 where
  | Base (f : Factor6)
  | Xor (a : Factor7) (b : Factor6)
inductive Factor8 where
  | Or (a : Factor8) (b : Factor7)
  | Base (f : Factor7)
inductive Factor9 where
  | Base (f : Factor8)
  | Ge (a : Factor8) (b : Factor8)
  | Le (a : Factor8) (b : Factor8)
  | Gt (a : Factor8) (b : Factor8)
  | Lt (a : Factor8) (b : Factor8)
inductive Factor10 where
  | Base (f : Factor9)
  | Eq (a : Factor9) (b : Factor9)
  | Neq (a : Factor9) (b : Factor9)
inductive Factor11 where
  | Ternary (cond : Factor10) (then_branch : Factor11) (else_branch : Factor11)
  | Base (f : Factor10)
inductive Expr where
  | mk (f : Factor11)
end

/-- `Number` from ast/expression.rs: a bare literal or a brace-delimited
expression. -/
inductive Number where
  | Literal (l : Spice.Literal)
  | Expr (e : Spice.Expr)

/-- `TryParse<Literal>`: an optional leading `-`, then a token accepted by
`SuffixNumberParser::to_number`. -/
def parseLiteral (ts : List Atom) (pos : Nat) : Except ParseError (Literal × Nat) :=
  let (neg, pos1) := if matchesTok ts pos "-" then (true, pos + 1) else (false, pos)
  match tokenAt ts pos1 with
  | .error e => .error e
  | .ok t =>
    match to_number t.raw with
    | some v => .ok ({ value := if neg then v.neg else v }, pos1 + 1)
    | none => .error (ParseError.unexpected "<string>" t.raw (some t.column))

/-- `TryParse<Ident>`. -/
def parseIdent (ts : List Atom) (pos : Nat) : Except ParseError (Ident × Nat) :=
  match parseName ts pos with
  | .error e => .error e
  | .ok (n, pos') => .ok ({ name := n }, pos')

/-- Fuel exhaustion marker: unreachable for fuel larger than the input
(every loop iteration and recursion step consumes tokens). -/
def fuelOut : ParseError := { reason := "<fuel>", position := none }

/-! The eleven expression tiers (`TryParse<Factor1>` … `TryParse<Expr>`,
ast/expression.rs) are mutually recursive through parenthesised
sub-expressions.  The mutual recursion is bounded by fuel and encoded as a
pack of parser functions built by structural recursion on the fuel, so
that the functions compute by reduction: at fuel `n + 1` every recursive
call runs at fuel `n`. -/

structure ExprParsers where
  f1 : List Atom → Nat → Except ParseError (Factor1 × Nat)
  callArgs : List Atom → Nat → List Expr → Except ParseError (List Expr × Nat)
  f2 : List Atom → Nat → Except ParseError (Factor2 × Nat)
  f3 : List Atom → Nat → Except ParseError (Factor3 × Nat)
  f4 : List Atom → Nat → Except ParseError (Factor4 × Nat)
  f4loop : List Atom → Factor4 → Nat → Except ParseError (Factor4 × Nat)
  f5 : List Atom → Nat → Except ParseError (Factor5 × Nat)
  f5loop : List Atom → Factor5 → Nat → Except ParseError (Factor5 × Nat)
  f6 : List Atom → Nat → Except ParseError (Factor6 × Nat)
  f6loop : List Atom → Factor6 → Nat → Except ParseError (Factor6 × Nat)
  f7 : List Atom → Nat → Except ParseError (Factor7 × Nat)
  f7loop : List Atom → Factor7 → Nat → Except ParseError (Factor7 × Nat)
  f8 : List Atom → Nat → Except ParseError (Factor8 × Nat)
  f8loop : List Atom → Factor8 → Nat → Except ParseError (Factor8 × Nat)
  f9 : List Atom → Nat → Except ParseError (Factor9 × Nat)
  f10 : List Atom → Nat → Except ParseError (Factor10 × Nat)
  f11 : List Atom → Nat → Except ParseError (Factor11 × Nat)
  expr : List Atom → Nat → Except ParseError (Expr × Nat)

/-- Fuel 0: every entry reports exhaustion. -/
def exprParsersZero : ExprParsers where
  f1 := fun _ _ => .error fuelOut
  callArgs := fun _ _ _ => .error fuelOut
  f2 := fun _ _ => .error fuelOut
  f3 := fun _ _ => .error fuelOut
  f4 := fun _ _ => .error fuelOut
  f4loop := fun _ _ _ => .error fuelOut
  f5 := fun _ _ => .error fuelOut
  f5loop := fun _ _ _ => .error fuelOut
  f6 := fun _ _ => .error fuelOut
  f6loop := fun _ _ _ => .error fuelOut
  f7 := fun _ _ => .error fuelOut
  f7loop := fun _ _ _ => .error fuelOut
  f8 := fun _ _ => .error fuelOut
  f8loop := fun _ _ _ => .error fuelOut
  f9 := fun _ _ => .error fuelOut
  f10 := fun _ _ => .error fuelOut
  f11 := fun _ _ => .error fuelOut
  expr := fun _ _ => .error fuelOut

/-- One fuel step: each body is the Rust implementation, with every
recursive call taken from `prev`. -/
def exprParsersSucc (prev : ExprParsers) : ExprParsers where
  /- `TryParse<Factor1>` from ast/expression.rs lines 132-162. -/
  f1 := fun ts pos =>
    if matchesTok ts pos "(" then
      match prev.expr ts (pos + 1) with
      | .error e => .error e
      | .ok (e, pos1) =>
        match expectTok ts pos1 ")" with
        | .error err => .error err
        | .ok (_, pos2) => .ok (.Parenthesis e, pos2)
    else
      match tryParseOption (parseIdent ts) pos with
      | .error e => .error e
      | .ok (some ident, pos1) =>
        if matchesTok ts pos1 "(" then
          match prev.callArgs ts (pos1 + 1) [] with
          | .error e => .error e
          | .ok (args, pos2) => .ok (.Call ident args, pos2)
        else .ok (.Ident ident, pos1)
      | .ok (none, pos1) =>
        match parseLiteral ts pos1 with
        | .error e => .error e
        | .ok (l, pos2) => .ok (.Literal l, pos2)
  /- the `while !self.matches_consume(")")` argument loop of `Factor1::Call` -/
  callArgs := fun ts pos acc =>
    if matchesTok ts pos ")" then .ok (acc, pos + 1)
    else
      match prev.expr ts pos with
      | .error e => .error e
      | .ok (e, pos') => prev.callArgs ts pos' (acc ++ [e])
  /- `TryParse<Factor2>`: prefix `+`/`-`/`~` recurse into `Factor2` -/
  f2 := fun ts pos =>
    if matchesTok ts pos "+" then
      match prev.f2 ts (pos + 1) with
      | .error e => .error e
      | .ok (f, p) => .ok (.Pos f, p)
    else if matchesTok ts pos "-" then
      match prev.f2 ts (pos + 1) with
      | .error e => .error e
      | .ok (f, p) => .ok (.Neg f, p)
    else if matchesTok ts pos "~" then
      match prev.f2 ts (pos + 1) with
      | .error e => .error e
      | .ok (f, p) => .ok (.Not f, p)
    else
      match prev.f1 ts pos with
      | .error e => .error e
      | .ok (f, p) => .ok (.Base f, p)
  /- `TryParse<Factor3>`: the right operand of `**` recurses into the
  power tier itself (right associativity) -/
  f3 := fun ts pos =>
    match prev.f2 ts pos with
    | .error e => .error e
    | .ok (left, pos1) =>
      if matchesTok ts pos1 "**" then
        match prev.f3 ts (pos1 + 1) with
        | .error e => .error e
        | .ok (right, pos2) => .ok (.Pow left right, pos2)
      else .ok (.Base left, pos1)
  /- `TryParse<Factor4>`: iterative left fold over `*` and `/` -/
  f4 := fun ts pos =>
    match prev.f3 ts pos with
    | .error e => .error e
    | .ok (f, pos1) => prev.f4loop ts (.Base f) pos1
  f4loop := fun ts left pos =>
    if matchesTok ts pos "*" then
      match prev.f3 ts (pos + 1) with
      | .error e => .error e
      | .ok (r, p) => prev.f4loop ts (.Mul left r) p
    else if matchesTok ts pos "/" then
      match prev.f3 ts (pos + 1) with
      | .error e => .error e
      | .ok (r, p) => prev.f4loop ts (.Div left r) p
    else .ok (left, pos)
  /- `TryParse<Factor5>`: iterative left fold over `+` and `-` -/
  f5 := fun ts pos =>
    match prev.f4 ts pos with
    | .error e => .error e
    | .ok (f, pos1) => prev.f5loop ts (.Base f) pos1
  f5loop := fun ts left pos =>
    if matchesTok ts pos "+" then
      match prev.f4 ts (pos + 1) with
      | .error e => .error e
      | .ok (r, p) => prev.f5loop ts (.Add left r) p
    else if matchesTok ts pos "-" then
      match prev.f4 ts (pos + 1) with
      | .error e => .error e
      | .ok (r, p) => prev.f5loop ts (.Sub left r) p
    else .ok (left, pos)
  /- `TryParse<Factor6>`: iterative left fold over `&` -/
  f6 := fun ts pos =>
    match prev.f5 ts pos with
    | .error e => .error e
    | .ok (f, pos1) => prev.f6loop ts (.Base f) pos1
  f6loop := fun ts left pos =>
    if matchesTok ts pos "&" then
      match prev.f5 ts (pos + 1) with
      | .error e => .error e
      | .ok (r, p) => prev.f6loop ts (.And left r) p
    else .ok (left, pos)
  /- `TryParse<Factor7>`: iterative left fold over `^` -/
  f7 := fun ts pos =>
    match prev.f6 ts pos with
    | .error e => .error e
    | .ok (f, pos1) => prev.f7loop ts (.Base f) pos1
  f7loop := fun ts left pos =>
    if matchesTok ts pos "^" then
      match prev.f6 ts (pos + 1) with
      | .error e => .error e
      | .ok (r, p) => prev.f7loop ts (.Xor left r) p
    else .ok (left, pos)
  /- `TryParse<Factor8>`: iterative left fold over `|` -/
  f8 := fun ts pos =>
    match prev.f7 ts pos with
    | .error e => .error e
    | .ok (f, pos1) => prev.f8loop ts (.Base f) pos1
  f8loop := fun ts left pos =>
    if matchesTok ts pos "|" then
      match prev.f7 ts (pos + 1) with
      | .error e => .error e
      | .ok (r, p) => prev.f8loop ts (.Or left r) p
    else .ok (left, pos)
  /- `TryParse<Factor9>` (ast/expression.rs lines 367-381): after the left
  operand at most one of `>= <= > <` is consumed, with a `Factor8` right
  operand; there is no loop -/
  f9 := fun ts pos =>
    match prev.f8 ts pos with
    | .error e => .error e
    | .ok (left, pos1) =>
      if matchesTok ts pos1 ">=" then
        match prev.f8 ts (pos1 + 1) with
        | .error e => .error e
        | .ok (r, p) => .ok (.Ge left r, p)
      else if matchesTok ts pos1 "<=" then
        match prev.f8 ts (pos1 + 1) with
        | .error e => .error e
        | .ok (r, p) => .ok (.Le left r, p)
      else if matchesTok ts pos1 ">" then
        match prev.f8 ts (pos1 + 1) with
        | .error e => .error e
        | .ok (r, p) => .ok (.Gt left r, p)
      else if matchesTok ts pos1 "<" then
        match prev.f8 ts (pos1 + 1) with
        | .error e => .error e
        | .ok (r, p) => .ok (.Lt left r, p)
      else .ok (.Base left, pos1)
  /- `TryParse<Factor10>`: at most one of `==`/`!=`; there is no loop -/
  f10 := fun ts pos =>
    match prev.f9 ts pos with
    | .error e => .error e
    | .ok (left, pos1) =>
      if matchesTok ts pos1 "==" then
        match prev.f9 ts (pos1 + 1) with
        | .error e => .error e
        | .ok (r, p) => .ok (.Eq left r, p)
      else if matchesTok ts pos1 "!=" then
        match prev.f9 ts (pos1 + 1) with
        | .error e => .error e
        | .ok (r, p) => .ok (.Neq left r, p)
      else .ok (.Base left, pos1)
  /- `TryParse<Factor11>`: the ternary tier -/
  f11 := fun ts pos =>
    match prev.f10 ts pos with
    | .error e => .error e
    | .ok (cond, pos1) =>
      if matchesTok ts pos1 "?" then
        match prev.f11 ts (pos1 + 1) with
        | .error e => .error e
        | .ok (thenB, pos2) =>
          match expectTok ts pos2 ":" with
          | .error e => .error e
          | .ok (_, pos3) =>
            match prev.f11 ts pos3 with
            | .error e => .error e
            | .ok (elseB, pos4) => .ok (.Ternary cond thenB elseB, pos4)
      else .ok (.Base cond, pos1)
  /- `TryParse<Expr>` -/
  expr := fun ts pos =>
    match prev.f11 ts pos with
    | .error e => .error e
    | .ok (f, p) => .ok (.mk f, p)

def exprParsers : Nat → ExprParsers
  | 0 => exprParsersZero
  | fuel + 1 => exprParsersSucc (exprParsers fuel)

def parseFactor3 (fuel : Nat) (ts : List Atom) (pos : Nat) : Except ParseError (Factor3 × Nat) :=
  (exprParsers fuel).f3 ts pos

def parseFactor4 (fuel : Nat) (ts : List Atom) (pos : Nat) : Except ParseError (Factor4 × Nat) :=
  (exprParsers fuel).f4 ts pos

def parseFactor9 (fuel : Nat) (ts : List Atom) (pos : Nat) : Except ParseError (Factor9 × Nat) :=
  (exprParsers fuel).f9 ts pos

def parseFactor10 (fuel : Nat) (ts : List Atom) (pos : Nat) : Except ParseError (Factor10 × Nat) :=
  (exprParsers fuel).f10 ts pos

def parseExpr (fuel : Nat) (ts : List Atom) (pos : Nat) : Except ParseError (Expr × Nat) :=
  (exprParsers fuel).expr ts pos


/-- `TryParse<Number>`: `{ expr }`, or a bare literal. -/
def parseNumber (fuel : Nat) (ts : List Atom) (pos : Nat) : Except ParseError (Number × Nat) :=
  if matchesTok ts pos "\x7b" then
    match parseExpr fuel ts (pos + 1) with
    | .error e => .error e
    | .ok (e, pos1) =>
      match expectTok ts pos1 "\x7d" with
      | .error err => .error err
      | .ok (_, pos2) => .ok (.Expr e, pos2)
  else
    match parseLiteral ts pos with
    | .error e => .error e
    | .ok (l, p) => .ok (.Literal l, p)

/-! ## Remaining data model (ast/mod.rs, variable.rs, sweep.rs,
transient.rs, gain.rs): plain data carried by commands and components.
These records are folded through `SpiceFileParser::parse` unchanged; only
`SubcktCommand` and `EndsCommand` are inspected by the claims below. -/

/-- `Param<T>`: `<name>=<value>`. -/
structure Param (α : Type) where
  name : Name
  value : α

/-- `Pairs<T, R>`: `<name>=<value>`. -/
structure Pairs (α β : Type) where
  name : α
  value : β

/-- `Options<T>`: `<name>` or `<name>=<value>`. -/
structure Options (α : Type) where
  name : Name
  value : Option α

/-- `Limits`: `(<lower>, <upper>)`. -/
structure Limits where
  lower : Number
  upper : Number

/-- `OptionParenthesis<T>`. -/
structure OptionParenthesis (α : Type) where
  val : α

/-- `AcType` from ast/mod.rs. -/
inductive AcType where
  | Lin | Oct | Dec
deriving Repr, DecidableEq

/-- `Terminal` from variable.rs. -/
inductive Terminal where
  | B | C | D | E | G | S
deriving Repr, DecidableEq

/-- `TransmissionEnd` from variable.rs. -/
inductive TransmissionEnd where
  | A | B
deriving Repr, DecidableEq

/-- `Suffix` from variable.rs (renamed: value.rs also has a `Suffix`,
modelled above as `EngSuffix`). -/
inductive VarSuffix where
  | None | Db | G | I | M | P | R
deriving Repr, DecidableEq

/-- `VoltageVariable` from variable.rs. -/
inductive VoltageVariable where
  | Node (node : ExplicitNode) (suffix : VarSuffix)
  | Node2 (node1 node2 : ExplicitNode) (suffix : VarSuffix)
  | Name (name : Spice.Name) (suffix : VarSuffix)
  | NameX (name : Spice.Name) (x : Terminal) (suffix : VarSuffix)
  | NameZ (name : Spice.Name) (z : TransmissionEnd) (suffix : VarSuffix)
  | NameXY (name : Spice.Name) (x y : Terminal) (suffix : VarSuffix)
deriving Repr, DecidableEq

/-- `CurrentVariable` from variable.rs. -/
inductive CurrentVariable where
  | Name (name : Spice.Name) (suffix : VarSuffix)
  | NameX (name : Spice.Name) (x : Terminal) (suffix : VarSuffix)
  | NameZ (name : Spice.Name) (z : TransmissionEnd) (suffix : VarSuffix)
deriving Repr, DecidableEq

/-- `PowerVariable` from variable.rs. -/
structure PowerVariable where
  name : Name
  suffix : VarSuffix
deriving Repr, DecidableEq

/-- `NoiseVariable` from variable.rs. -/
inductive NoiseVariable where
  | Onoise | Inoise | DbOnoise | DbInoise
deriving Repr, DecidableEq

/-- `OutputVariable` from variable.rs. -/
inductive OutputVariable where
  | Voltage (v : VoltageVariable)
  | Current (c : CurrentVariable)
  | Power (p : PowerVariable)
  | Noise (n : NoiseVariable)
deriving Repr, DecidableEq

/-- `PrintVariable` from ast/mod.rs (`variable` and `variables` are Lean
command keywords, hence the trailing underscore on such field names). -/
structure PrintVariable where
  variable_ : OutputVariable
  limits : Option Limits

/-- `SweepName` from sweep.rs. -/
inductive SweepName where
  | Power (name : Spice.Name)
  | ModelParam (name1 name2 param : Spice.Name)
  | Temp
  | Param (name : Spice.Name)
deriving Repr, DecidableEq

/-- `Lin` from sweep.rs. -/
structure Lin where
  swname : SweepName
  sstart : Number
  send : Number
  sinc : Number

/-- `Oct` from sweep.rs. -/
structure Oct where
  swname : SweepName
  sstart : Number
  send : Number
  np : Number

/-- `Dec` from sweep.rs. -/
structure Dec where
  swname : SweepName
  sstart : Number
  send : Number
  np : Number

/-- `List` from sweep.rs (renamed to avoid shadowing `List`). -/
structure SweepList where
  swname : SweepName
  values : List Number

/-- `Sweep` from sweep.rs. -/
inductive Sweep where
  | Lin (l : Spice.Lin)
  | Oct (o : Spice.Oct)
  | Dec (d : Spice.Dec)
  | List (l : SweepList)

/-- `DcSource` from transient.rs. -/
structure DcSource where
  dc : Bool
  value : Number

/-- `AcSource` from transient.rs. -/
structure AcSource where
  magnitude : Number
  phase : Option Number

/-- `Pulse` from transient.rs. -/
structure Pulse where
  v1 : Number
  v2 : Number
  td : Option Number
  tr : Option Number
  tf : Option Number
  pw : Option Number
  per : Option Number

/-- `Pwl` from transient.rs. -/
structure Pwl where
  points : List (Number × Number)

/-- `Sin` from transient.rs. -/
structure Sin where
  v0 : Number
  vampl : Number
  freq : Option Number
  td : Option Number
  alpha : Option Number
  theta : Option Number

/-- `Exp` from transient.rs. -/
structure Exp where
  v1 : Number
  v2 : Number
  td1 : Option Number
  tc1 : Option Number
  td2 : Option Number
  tc2 : Option Number

/-- `Sffm` from transient.rs. -/
structure Sffm where
  v0 : Number
  va : Number
  fc : Option Number
  md : Option Number
  fs : Option Number

/-- `Vac` from transient.rs. -/
structure Vac where
  dc : Number
  ac_mag : Number
  ac_phase : Number

/-- `Transient` from transient.rs. -/
inductive Transient where
  | Pulse (p : Spice.Pulse)
  | Pwl (p : Spice.Pwl)
  | Sin (s : Spice.Sin)
  | Exp (e : Spice.Exp)
  | Sffm (s : Spice.Sffm)
  | Vac (v : Spice.Vac)

/-- `SimpleVoltageGain` from gain.rs. -/
structure SimpleVoltageGain where
  node1 : Node
  node2 : Node
  gain : Number

/-- `SimpleCurrentGain` from gain.rs. -/
structure SimpleCurrentGain where
  vdevice : Name
  gain : Number

/-- `PolyVoltageGain` from gain.rs. -/
structure PolyVoltageGain where
  n : Nat
  nodes : List (Node × Node)
  coefficients : List Number

/-- `PolyCurrentGain` from gain.rs. -/
structure PolyCurrentGain where
  n : Nat
  vdevices : List Name
  coefficients : List Number

/-- `ValueGain` from gain.rs. -/
structure ValueGain where
  value : Expr

/-- `TableGain` from gain.rs. -/
structure TableGain where
  expression : Expr
  values : List (OptionParenthesis (Number × Number))

/-- `LaplaceGain` from gain.rs. -/
structure LaplaceGain where
  expression : Expr
  transform : Expr

/-- `FreqKeyword` from gain.rs. -/
inductive FreqKeyword where
  | Mag | Db | Rad | Deg | Ri
deriving Repr, DecidableEq

/-- `FreqGainParams` from gain.rs. -/
structure FreqGainParams where
  delay : Option Number

/-- `FreqGain` from gain.rs. -/
structure FreqGain where
  expression : Expr
  keyword : Option FreqKeyword
  values : List (OptionParenthesis (Number × Number × Number))
  params : FreqGainParams

/-- `ChebyshevGainParams` from gain.rs. -/
structure ChebyshevGainParams where
  lp : Bool
  hp : Bool
  bp : Bool
  br : Bool

/-- `ChebyshevGain` from gain.rs. -/
structure ChebyshevGain where
  expression : Expr
  params : ChebyshevGainParams
  cutoffs : List Number
  attenuations : List Number

/-- `VoltageGain` from gain.rs. -/
inductive VoltageGain where
  | Simple (g : SimpleVoltageGain)
  | Poly (g : PolyVoltageGain)
  | Value (g : ValueGain)
  | Table (g : TableGain)
  | Laplace (g : LaplaceGain)
  | Freq (g : FreqGain)
  | Chebyshev (g : ChebyshevGain)

/-- `CurrentGain` from gain.rs. -/
inductive CurrentGain where
  | Simple (g : SimpleCurrentGain)
  | Poly (g : PolyCurrentGain)

/-! ### Components (ast/component.rs): data shape only. -/

structure BComponent where
  name : Name
  drain : Node
  gate : Node
  source : Node
  model : Name
  area : Option Number

structure CComponentParams where
  ic : Option Number

structure CComponent where
  name : Name
  node1 : Node
  node2 : Node
  model : Option Name
  value : Number
  params : CComponentParams

structure DComponent where
  name : Name
  node1 : Node
  node2 : Node
  model : Name
  area : Option Number

structure EComponent where
  name : Name
  node1 : Node
  node2 : Node
  gain : VoltageGain

structure FComponent where
  name : Name
  node1 : Node
  node2 : Node
  gain : CurrentGain

structure GComponent where
  name : Name
  node1 : Node
  node2 : Node
  gain : VoltageGain

structure HComponent where
  name : Name
  node1 : Node
  node2 : Node
  gain : CurrentGain

structure IComponent where
  name : Name
  node1 : Node
  node2 : Node
  dc : Option DcSource
  ac : Option AcSource
  transient : Option Transient

structure JComponent where
  name : Name
  drain : Node
  gate : Node
  source : Node
  model : Name
  area : Option Number

structure KComponent where
  name : Name
  inducts : List Name
  k : Number
  model : Option (Name × Option Number)

structure LComponentParams where
  ic : Option Number

structure LComponent where
  name : Name
  node1 : Node
  node2 : Node
  model : Option Name
  value : Number
  params : LComponentParams

structure MComponentParams where
  l : Option Number
  w : Option Number
  ad : Option Number
  as_ : Option Number
  pd : Option Number
  ps : Option Number
  nrd : Option Number
  nrs : Option Number
  nrg : Option Number
  nrb : Option Number
  m : Option Number
  n : Option Number

structure MComponent where
  name : Name
  drain : Node
  gate : Node
  source : Node
  bulk : Node
  model : Name
  params : MComponentParams

structure QComponent where
  name : Name
  collector : Node
  base : Node
  emitter : Node
  substrate : Option ExplicitNode
  model : Name
  area : Option Number

structure RComponentParams where
  tc : Option (Number × Option Number)

structure RComponent where
  name : Name
  node1 : Node
  node2 : Node
  model : Option Name
  value : Number
  params : RComponentParams

structure SComponent where
  name : Name
  snode1 : Node
  snode2 : Node
  cnode1 : Node
  cnode2 : Node
  model : Name

structure TComponentParams where
  z0 : Option Number
  td : Option Number
  f : Option Number
  nl : Option Number
  ic : Option (Number × Number × Number × Number)
  len : Option Number
  r : Option Number
  l : Option Number
  g : Option Number
  c : Option Number

structure TComponent where
  name : Name
  anode1 : Node
  anode2 : Node
  bnode1 : Node
  bnode2 : Node
  model : Option (Name × Option Number)
  params : TComponentParams

structure VComponent where
  name : Name
  node1 : Node
  node2 : Node
  dc : Option DcSource
  ac : Option AcSource
  transient : Option Transient

structure WComponent where
  name : Name
  snode1 : Node
  snode2 : Node
  vdevice : Name
  model : Name

structure XComponent where
  name : Name
  pins : List Node
  sname : Name
  params : List (Param Number)
  texts : List (Param Text)

structure ZComponentParams where
  area : Option Number
  wb : Option Number
  agd : Option Number
  kp : Option Number
  tau : Option Number

structure ZComponent where
  name : Name
  collector : Node
  gate : Node
  emitter : Node
  model : Name
  params : ZComponentParams

/-- `Component` from ast/component.rs. -/
inductive Component where
  | B (c : BComponent)
  | C (c : CComponent)
  | D (c : DComponent)
  | E (c : EComponent)
  | F (c : FComponent)
  | G (c : GComponent)
  | H (c : HComponent)
  | I (c : IComponent)
  | J (c : JComponent)
  | K (c : KComponent)
  | L (c : LComponent)
  | M (c : MComponent)
  | Q (c : QComponent)
  | R (c : RComponent)
  | S (c : SComponent)
  | T (c : TComponent)
  | V (c : VComponent)
  | W (c : WComponent)
  | X (c : XComponent)
  | Z (c : ZComponent)

/-! ### Commands (ast/command.rs): data shape only, except `SubcktCommand`
and `EndsCommand` whose structure the Program Assembler inspects. -/

structure AcCommand where
  ty : AcType
  np : Number
  fstart : Number
  fend : Number

structure DcCommand where
  sweeps : List Sweep

structure EndCommand where
deriving Repr, DecidableEq

structure FourCommand where
  freq : Number
  np : Option Nat
  variables_ : List OutputVariable

structure FuncCommand where
deriving Repr, DecidableEq

structure GlobalCommand where
  node : Node

structure IcCommand where
  ics : List (Pairs OutputVariable Number)

structure IncCommand where
  filename : Text

structure LibCommand where
  filename : Option Text

structure McCommand where
deriving Repr, DecidableEq

structure ModelCommand where
  name : Name
  reference : Option Name
  ty : Name
  params : List (Param Number)

structure NodeSetCommand where
  nodesets : List (Pairs OutputVariable Number)

structure NoiseCommand where
  variable_ : OutputVariable
  source : Name
  m : Option Nat

structure OpCommand where
deriving Repr, DecidableEq

structure OptionsCommand where
  options : List (Options Number)

structure ParamCommand where
  params : List (Param Number)

/-- `ProbeSource` from ast/command.rs. -/
inductive ProbeSource where
  | Tran | Dc | Ac | Noise
deriving Repr, DecidableEq

structure PlotCommand where
  source : ProbeSource
  variables_ : List PrintVariable

structure PrintCommand where
  dgtlchg : Bool
  source : ProbeSource
  variables_ : List PrintVariable

structure ProbeCommand where
  csdf : Bool
  variables_ : List PrintVariable

structure SensCommand where
  variables_ : List OutputVariable

structure StepCommand where
  sweeps : List Sweep

/-- `EndsCommand`: `.ENDS [<name>]`. -/
structure EndsCommand where
  name : Option Name

structure TempCommand where
  temps : List Number

structure TextCommand where
  texts : List (Param Text)

structure TfCommand where
  output : OutputVariable
  input : Name

structure TranCommandParams where
  uic : Bool
  skipbp : Bool
deriving Repr, DecidableEq

structure TranCommand where
  op : Bool
  tstep : Number
  tstop : Number
  tstart : Option Number
  tmax : Option Number
  params : TranCommandParams

structure WatchCommand where
  source : ProbeSource
  variables_ : List PrintVariable

structure WidthCommand where
  width : Number

mutual
/-- `SubcktCommand` from ast/command.rs: header fields plus the nested
body filled in by the Program Assembler. -/
inductive SubcktCommand where
  | mk (name : Spice.Name) (pins : List Node) (optionals : List (Pairs Node Node))
       (params : List (Param Number)) (texts : List (Param Spice.Text))
       (instructions : List Instruction)

/-- `Command` from ast/command.rs. -/
inductive Command where
  | Ac (c : AcCommand)
  | Dc (c : DcCommand)
  | End (c : EndCommand)
  | Four (c : FourCommand)
  | Func (c : FuncCommand)
  | Global (c : GlobalCommand)
  | Ic (c : IcCommand)
  | Inc (c : IncCommand)
  | Lib (c : LibCommand)
  | Mc (c : McCommand)
  | Model (c : ModelCommand)
  | NodeSet (c : NodeSetCommand)
  | Noise (c : NoiseCommand)
  | Op (c : OpCommand)
  | Options (c : OptionsCommand)
  | Param (c : ParamCommand)
  | Plot (c : PlotCommand)
  | Print (c : PrintCommand)
  | Probe (c : ProbeCommand)
  | Sens (c : SensCommand)
  | Step (c : StepCommand)
  | Subckt (c : SubcktCommand)
  | Ends (c : EndsCommand)
  | Temp (c : TempCommand)
  | Text (c : TextCommand)
  | Tf (c : TfCommand)
  | Tran (c : TranCommand)
  | Watch (c : WatchCommand)
  | Width (c : WidthCommand)

/-- `Instruction` from ast/mod.rs. -/
inductive Instruction where
  | command (c : Command)
  | component (c : Component)
end

/-- `Program` from ast/mod.rs. -/
structure Program where
  name : Option Name
  instructions : List Instruction

def SubcktCommand.name : SubcktCommand → Name
  | .mk n _ _ _ _ _ => n

def SubcktCommand.instructions : SubcktCommand → List Instruction
  | .mk _ _ _ _ _ i => i

/-- `subckt.instructions = instructions` (parse.rs line 378). -/
def SubcktCommand.withInstructions : SubcktCommand → List Instruction → SubcktCommand
  | .mk n p o pa t _, i => .mk n p o pa t i

/-! ## Program Assembler (parse.rs, `SpiceFileParser::parse` lines 356-410)

The subckt folding loop keeps a stack of in-progress bodies (`stack`,
started as `vec![vec![]]`) and a parallel stack of open subckt records
(`subckts`).  Both Rust vectors push and pop at the end; here the head of
the list is the top of the stack, and a body grows by appending at its
end.  The `unwrap()` calls on `stack` (unreachable: the loop keeps
`stack.len() = subckts.len() + 1`) are the `none` outcome. -/

def ParseError.unmatchedEnds : ParseError := { reason := "Unmatched .ENDS", position := none }

def ParseError.missingEnds : ParseError :=
  { reason := "Missing .ENDS for .SUBCKT", position := none }

def assembleRun : List (List Instruction) → List SubcktCommand → List Instruction →
    Option (Except ParseError (List Instruction))
  | stack, _, [] =>
    if stack.length ≠ 1 then some (.error ParseError.missingEnds)
    else
      match stack with
      | [b] => some (.ok b)
      | _ => none
  | stack, subckts, inst :: rest =>
    match inst with
    | .command (.Subckt sc) => assembleRun ([] :: stack) (sc :: subckts) rest
    | .command (.Ends ec) =>
      match subckts with
      | [] => some (.error ParseError.unmatchedEnds)
      | sc :: subckts' =>
        if (match ec.name with
            | some n => !(Name.beqRaw n sc.name)
            | none => false) then
          some (.error ParseError.unmatchedEnds)
        else
          match stack with
          | body :: top :: stack' =>
            assembleRun
              ((top ++ [.command (.Subckt (sc.withInstructions body))]) :: stack')
              subckts' rest
          | _ => none
    | _ =>
      match stack with
      | top :: stack' => assembleRun ((top ++ [inst]) :: stack') subckts rest
      | [] => none

/-- The folding stage applied to the flat instruction list, from the
initial state `stack = vec![vec![]]`, `subckts = vec![]`. -/
def assemble (insts : List Instruction) : Option (Except ParseError (List Instruction)) :=
  assembleRun [[]] [] insts

/-! ## File parser (parse.rs, `SpiceFileParser::parse` lines 321-354)

The per-line grammar (the `Command`/`Component` dispatch plus
`fallback_position` and `expect_eof`, lines 333-354) is abstracted as a
line-parsing function argument; the title extraction and the folding are
the code.  An empty line would make `line[0]` and the `token().unwrap()`
panic, hence the `none` branch. -/

def parseLinesWith (pl : List Atom → Except ParseError Instruction) :
    List (List Atom) → Option (Except ParseError (List Instruction))
  | [] => some (.ok [])
  | line :: ls =>
    match line with
    | [] => none
    | _ :: _ =>
      match pl line with
      | .error e => some (.error e)
      | .ok inst => (parseLinesWith pl ls).map (fun r => r.map (fun is => inst :: is))

/-- Lines 321-329: if the first line holds exactly one token and its raw
text does not start with `.`, it is consumed as the program name. -/
def titleSplit (vec : List (List Atom)) : Option Name × List (List Atom) :=
  match vec with
  | first :: rest =>
    match first with
    | [a] => if strStartsWith a.raw "." then (none, vec) else (some { atom := a }, rest)
    | _ => (none, vec)
  | [] => (none, [])

/-- `SpiceFileParser::parse`, with the line grammar abstracted as `pl`. -/
def SpiceFileParser.parse (pl : List Atom → Except ParseError Instruction)
    (vec : List (List Atom)) : Option (Except ParseError Program) :=
  let (name, rest) := titleSplit vec
  match parseLinesWith pl rest with
  | none => none
  | some (.error e) => some (.error e)
  | some (.ok insts) =>
    match assemble insts with
    | none => none
    | some (.error e) => some (.error e)
    | some (.ok is) => some (.ok { name := name, instructions := is })

/-! ## Include Expander (grammar.rs, `Worker::work` lines 42-78)

Paths: `PathBuf::join` appends a relative component and replaces the whole
path for an absolute one; a path is the list of components joined so far.
The filesystem (`fs::read_to_string` + `try_parse_program`) is abstracted
as a map from paths to parse results; a missing file is `none` (the code
unwraps the read, a panic).  The `visit` set is threaded explicitly: the
code only ever inserts into it.  Recursion depth is bounded by fuel;
running out of fuel is `none` (the Rust recursion would overflow). -/

abbrev PathT := List String

/-- `PathBuf::join`: an absolute path replaces, a relative one appends. -/
def joinPath (p : PathT) (s : String) : PathT :=
  if strStartsWith s "/" then [s] else p ++ [s]

/-- `Path::with_extension("lib")` on the last component. -/
def setExtension (s ext : String) : String :=
  let cs := s.toList
  let stem :=
    if cs.contains '.' then (cs.reverse.dropWhile (fun c => c != '.')).reverse.dropLast
    else cs
  String.mk (stem ++ '.' :: ext.toList)

def withExtensionP (p : PathT) (ext : String) : PathT :=
  match p.getLast? with
  | some s => p.dropLast ++ [setExtension s ext]
  | none => p

/-- `Text::to_string`: the raw text without its surrounding quotes
(`self.0.raw[1..len-1]`). -/
def Text.toStr (t : Text) : String :=
  String.mk ((t.atom.raw.toList.drop 1).dropLast)

/-- The error side of `Worker::work`'s `anyhow::Result`. -/
inductive WorkErr where
  | recursive (p : PathT)
  | parse (e : ParseError)

/-- The `for ins in program.instructions` loop of `Worker::work`:
`.INC`/`.LIB` references are resolved against the including file's path
and expanded in place by the recursive `work` call (passed in as `w`),
everything else is kept.  The loop runs at the same recursion depth as
the `work` invocation that contains it. -/
def workInstrsWith (fs : PathT → Option (Except ParseError Program))
    (w : List PathT → PathT → Option (Except WorkErr (Program × List PathT))) :
    List PathT → PathT → List Instruction →
    Option (Except WorkErr (List Instruction × List PathT))
  | visit, _, [] => some (.ok ([], visit))
  | visit, filename, ins :: rest =>
    match ins with
    | .command (.Inc inc) =>
      let incp := joinPath filename inc.filename.toStr
      match w visit incp with
      | none => none
      | some (.error e) => some (.error e)
      | some (.ok (prog, visit')) =>
        match workInstrsWith fs w visit' filename rest with
        | none => none
        | some (.error e) => some (.error e)
        | some (.ok (out, visit'')) => some (.ok (prog.instructions ++ out, visit''))
    | .command (.Lib lib) =>
      let libp :=
        match lib.filename with
        | some t => joinPath filename t.toStr
        | none => withExtensionP filename "lib"
      match w visit libp with
      | none => none
      | some (.error e) => some (.error e)
      | some (.ok (prog, visit')) =>
        match workInstrsWith fs w visit' filename rest with
        | none => none
        | some (.error e) => some (.error e)
        | some (.ok (out, visit'')) => some (.ok (prog.instructions ++ out, visit''))
    | _ =>
      match workInstrsWith fs w visit filename rest with
      | none => none
      | some (.error e) => some (.error e)
      | some (.ok (out, visit')) => some (.ok (ins :: out, visit'))

/-- `Worker::work`: reject a visited path, mark the path visited, read and
parse the file, then expand its instruction list.  Structural recursion on
the fuel: the nested `work` calls inside the instruction loop run at one
less fuel. -/
def work (fs : PathT → Option (Except ParseError Program)) :
    Nat → List PathT → PathT → Option (Except WorkErr (Program × List PathT))
  | 0, _, _ => none
  | fuel + 1, visit, filename =>
    if visit.contains filename then some (.error (.recursive filename))
    else
      let visit := filename :: visit
      match fs filename with
      | none => none
      | some (.error e) => some (.error (.parse e))
      | some (.ok program) =>
        match workInstrsWith fs (work fs fuel) visit filename program.instructions with
        | none => none
        | some (.error e) => some (.error e)
        | some (.ok (out, visit')) =>
          some (.ok ({ program with instructions := out }, visit'))

/-- The instruction loop at a given fuel, as the mutual recursion runs it. -/
def workInstrs (fs : PathT → Option (Except ParseError Program)) (fuel : Nat) :
    List PathT → PathT → List Instruction →
    Option (Except WorkErr (List Instruction × List PathT)) :=
  workInstrsWith fs (work fs fuel)


/-! ## The Command dispatcher head (ast/command.rs, `TryParse<Command>`
lines 682-734): the `match` over the first token's uppercased raw text.
A `handled` outcome delegates to the named sub-grammar's `TryParse`
implementation; `crash` is a literal `todo!()` in the source, which
panics. -/

inductive HeadAction where
  | handled (k : String)
  | crash
  | unknownCommand
  | notACommand
deriving Repr, DecidableEq

def handledCommandNames : List String :=
  [".AC", ".DC", ".END", ".FOUR", ".GLOBAL", ".IC", ".INC", ".LIB", ".MODEL",
   ".NODESET", ".NOISE", ".OP", ".OPTIONS", ".PARAM", ".PLOT", ".PRINT",
   ".PROBE", ".SENS", ".STEP", ".SUBCKT", ".ENDS", ".TEMP", ".TEXT", ".TF",
   ".TRAN", ".WATCH", ".WIDTH"]

/-- The dispatch decision of `TryParse<Command>` on the first token:
`.FUNC` and `.MC` hit `todo!()`; any other `.`-token is rejected with
`Unknown command`; a non-`.` token with `Expect ... to be a Command name`. -/
def commandHead (raw : String) : HeadAction :=
  let up := upperAscii raw
  if handledCommandNames.contains up then .handled up
  else if up == ".FUNC" || up == ".MC" then .crash
  else if strStartsWith up "." then .unknownCommand
  else .notACommand

/-! ## Spec-side descriptions used by the theorems -/

/-- A concrete token line: the first merged line of `tokenize` output. -/
def toks (s : String) : List Atom := (tokenize s).headD []

/-- An instruction the subckt folding loop pushes unchanged: neither a
`.SUBCKT` nor an `.ENDS` command. -/
def isOtherI : Instruction → Bool
  | .command (.Subckt _) => false
  | .command (.Ends _) => false
  | _ => true

/-- Spec-side description of a balanced instruction list and its folded
form: `FlatList f p` holds when the `.SUBCKT`/`.ENDS` markers of `f` nest
in a balanced way with matching explicit names, and `p` is `f` with each
marker pair replaced by the single `Subckt` instruction carrying the
folded body between the pair. -/
inductive FlatList : List Instruction → List Instruction → Prop where
  | nil : FlatList [] []
  | consOther {i : Instruction} {f p : List Instruction} :
      isOtherI i = true → FlatList f p → FlatList (i :: f) (i :: p)
  | consSubckt {sc : SubcktCommand} {ec : EndsCommand}
      {body bodyF rest restF : List Instruction} :
      (∀ n, ec.name = some n → Name.beqRaw n sc.name = true) →
      FlatList body bodyF → FlatList rest restF →
      FlatList (.command (.Subckt sc) :: (body ++ .command (.Ends ec) :: rest))
               (.command (.Subckt (sc.withInstructions bodyF)) :: restF)

/-- The three structural defects of a `.SUBCKT`/`.ENDS` sequence the claim
names: an `.ENDS` with no open `.SUBCKT`, an `.ENDS` whose explicit name
differs from the innermost open `.SUBCKT`, and a `.SUBCKT` left open at
the end of the input. -/
inductive Defect where
  | unmatchedEnds
  | nameMismatch
  | unclosed
deriving Repr, DecidableEq

/-- The `ParseError` the folding loop reports for each defect. -/
def defectError : Defect → ParseError
  | .unmatchedEnds => ParseError.unmatchedEnds
  | .nameMismatch => ParseError.unmatchedEnds
  | .unclosed => ParseError.missingEnds

/-- Spec-side scan for the first defect of an instruction list, keeping
the stack of open subckt names (innermost first). -/
def scanDefect : List Name → List Instruction → Option Defect
  | opens, [] => if opens.isEmpty then none else some .unclosed
  | opens, i :: rest =>
    match i with
    | .command (.Subckt sc) => scanDefect (sc.name :: opens) rest
    | .command (.Ends ec) =>
      match opens with
      | [] => some .unmatchedEnds
      | n :: opens' =>
        match ec.name with
        | some m => if Name.beqRaw m n then scanDefect opens' rest else some .nameMismatch
        | none => scanDefect opens' rest
    | _ => scanDefect opens rest

/-- Spec-side description of a hard (non-EOF) failure inside the ordered
field walk: some prefix of the fields succeeds and the next field fails
with an error whose reason does not mention EOF. -/
inductive ErrAt {α : Type} : List (FieldParser α) → Nat → ParseError → Prop where
  | here {f : FieldParser α} {fs : List (FieldParser α)} {pos : Nat} {e : ParseError} :
      f pos = .error e → reasonHasEOF e = false → ErrAt (f :: fs) pos e
  | there {f : FieldParser α} {fs : List (FieldParser α)} {pos pos' : Nat} {v : α}
      {e : ParseError} :
      f pos = .ok (v, pos') → ErrAt fs pos' e → ErrAt (f :: fs) pos e

/-- A `.INC "/d"` instruction (the quoted filename resolves to the
absolute path `/d`). -/
def incD : Instruction :=
  .command (.Inc { filename := { atom := { raw := "\"/d\"", column := (5, 9), line := 1 } } })

/-- A two-file filesystem: the root file `/r` includes `/d` twice in a
row; `/d` holds one plain command and includes nothing, so the include
tree is a diamond with no cycle. -/
def fsDiamond : PathT → Option (Except ParseError Program)
  | ["/r"] => some (.ok { name := none, instructions := [incD, incD] })
  | ["/d"] => some (.ok { name := none, instructions := [.command (.Op {})] })
  | _ => none


/-! ## Theorems

First the helper lemmas shared between claims, then one theorem per
claim (with its witness or counterexample where one is called for). -/

theorem optCheck_iff (f : Char → Bool) (o : Option Char) :
    optCheck f o = true ↔ ∃ d, o = some d ∧ f d = true := by
  cases o <;> simp [optCheck]

/-- When the keep-conditions fail for a special character outside a
quoted string, the scanner emits at least one token at this step. -/
theorem lexStep_sp_split (line : List Char) (j : Nat) (c : Char) (s : LexState)
    (hskip : s.skip = false) (hq : s.is_quote = false)
    (hne : ¬(c = '"')) (hw : (c.isWhitespace || c == ',') = false)
    (hsp : isSpecialChar c = true)
    (h : ¬(s.start < j ∧ isInsideNumber line s.start j c = true)) :
    s.tokens.length < (lexStep line j c s).tokens.length := by
  simp only [lexStep, hskip, hq, Bool.false_eq_true, if_false, hw, hsp,
    Bool.false_or, if_true, Bool.true_eq_false, reduceCtorEq, reduceIte]
  rw [if_neg hne]
  rw [if_neg (show ¬(True ∧ s.start < j ∧ isInsideNumber line s.start j c = true) by
    rintro ⟨-, h2, h3⟩; exact h ⟨h2, h3⟩)]
  split <;> split <;> simp

/-- When the keep-conditions hold, the scanner keeps the state unchanged
(the `continue` of lexer.rs line 143). -/
theorem lexStep_sp_keep (line : List Char) (j : Nat) (c : Char) (s : LexState)
    (hskip : s.skip = false) (hq : s.is_quote = false)
    (hne : ¬(c = '"')) (hw : (c.isWhitespace || c == ',') = false)
    (hsp : isSpecialChar c = true)
    (h : s.start < j ∧ isInsideNumber line s.start j c = true) :
    lexStep line j c s = s := by
  simp only [lexStep, hskip, hq, Bool.false_eq_true, if_false, hw, hsp,
    Bool.false_or, if_true, Bool.true_eq_false, reduceCtorEq, reduceIte]
  rw [if_neg hne]
  rw [if_pos ⟨trivial, h.1, h.2⟩]

/-- Claim C3 (amended): outside a quoted string (and outside the skip
position after a two-character operator), a `+`/`-` at position `j` is
kept inside the surrounding token — the scanner state is unchanged —
exactly when the pending run is nonempty, starts with a digit or `.`,
ends with `e`/`E`, and the next character is a decimal digit.  The
claim's three examples follow. -/
theorem C3_plus_minus_in_number (line : List Char) (j : Nat) (c : Char) (s : LexState)
    (hc : c = '+' ∨ c = '-') (hskip : s.skip = false) (hq : s.is_quote = false) :
    (lexStep line j c s = s ↔
      (s.start < j ∧
       (∃ d, ((line.drop s.start).take (j - s.start)).head? = some d ∧
          (d = '.' ∨ d.isDigit = true)) ∧
       (∃ d, ((line.drop s.start).take (j - s.start)).getLast? = some d ∧
          (d = 'e' ∨ d = 'E')) ∧
       (∃ d, line.get? (j + 1) = some d ∧ d.isDigit = true))) ∧
    (tokenize "1.3e-4").map (List.map Atom.raw) = [["1.3e-4"]] ∧
    (tokenize "a-4").map (List.map Atom.raw) = [["a", "-", "4"]] ∧
    (tokenize "e-4").map (List.map Atom.raw) = [["e", "-", "4"]] := by
  refine ⟨?_, by decide, by decide, by decide⟩
  have hne : ¬(c = '"') := by rcases hc with rfl | rfl <;> decide
  have hw : (c.isWhitespace || c == ',') = false := by rcases hc with rfl | rfl <;> decide
  have hsp : isSpecialChar c = true := by rcases hc with rfl | rfl <;> decide
  have hin : isInsideNumber line s.start j c = true ↔
      ((∃ d, ((line.drop s.start).take (j - s.start)).head? = some d ∧
          (d = '.' ∨ d.isDigit = true)) ∧
       (∃ d, ((line.drop s.start).take (j - s.start)).getLast? = some d ∧
          (d = 'e' ∨ d = 'E')) ∧
       (∃ d, line.get? (j + 1) = some d ∧ d.isDigit = true)) := by
    simp only [isInsideNumber, Bool.and_eq_true, optCheck_iff, Bool.or_eq_true, beq_iff_eq]
    aesop
  constructor
  · intro he
    by_contra hcon
    have hs : ¬(s.start < j ∧ isInsideNumber line s.start j c = true) := by
      rintro ⟨h1, h2⟩; exact hcon ⟨h1, hin.mp h2⟩
    have := lexStep_sp_split line j c s hskip hq hne hw hsp hs
    rw [he] at this; omega
  · rintro ⟨h1, h2⟩
    exact lexStep_sp_keep line j c s hskip hq hne hw hsp ⟨h1, hin.mpr h2⟩

/-- Witness for C3 at the `-` of `1.3e-4` (run `1.3e`, next char `4`). -/
theorem C3_plus_minus_in_number_witness :
    (lexStep "1.3e-4".toList 4 '-' ⟨[], 0, false, false⟩ = ⟨[], 0, false, false⟩ ↔
      ((0:Nat) < 4 ∧
       (∃ d, (("1.3e-4".toList.drop 0).take (4 - 0)).head? = some d ∧
          (d = '.' ∨ d.isDigit = true)) ∧
       (∃ d, (("1.3e-4".toList.drop 0).take (4 - 0)).getLast? = some d ∧
          (d = 'e' ∨ d = 'E')) ∧
       (∃ d, "1.3e-4".toList.get? (4 + 1) = some d ∧ d.isDigit = true))) ∧
    (tokenize "1.3e-4").map (List.map Atom.raw) = [["1.3e-4"]] ∧
    (tokenize "a-4").map (List.map Atom.raw) = [["a", "-", "4"]] ∧
    (tokenize "e-4").map (List.map Atom.raw) = [["e", "-", "4"]] :=
  C3_plus_minus_in_number "1.3e-4".toList 4 '-' ⟨[], 0, false, false⟩ (Or.inr rfl) rfl rfl

/-- Counterexample to C3 as stated: inside a quoted string the scanner
keeps a `+` in the surrounding token although none of the claim's three
conditions hold — `"1+2"` (with the quotes) lexes as one Atom. -/
theorem C3_quoted_plus_counterexample :
    (tokenize "\"1+2\"").map (List.map Atom.raw) = [["\"1+2\""]] ∧
    (lexStep "\"1+2\"".toList 2 '+' ⟨[], 1, false, true⟩ = ⟨[], 1, false, true⟩) ∧
    isInsideNumber "\"1+2\"".toList 1 2 '+' = false := by decide


/-- The `Vec<T>` loop: when every successful parse advances the cursor
and every position past `len` fails, the loop terminates within fuel and
returns the accumulated values with the last successful position. -/
theorem tryParseVecAux_spec {α : Type} (p : FieldParser α) (len : Nat)
    (hadv : ∀ pos v pos', p pos = .ok (v, pos') → pos < pos')
    (hbound : ∀ pos, len ≤ pos → ∃ e, p pos = .error e) :
    ∀ fuel pos acc, 1 ≤ fuel → len + 2 ≤ fuel + pos →
      ∃ vs pos', tryParseVecAux p fuel acc pos = some (acc ++ vs, pos') ∧
        VecChain p pos vs pos' := by
  intro fuel
  induction fuel with
  | zero => intro pos acc h1 h2; omega
  | succ fuel ih =>
    intro pos acc h1 h2
    cases hp : p pos with
    | error e =>
      exact ⟨[], pos, by simp [tryParseVecAux, hp], .stop hp⟩
    | ok vp =>
      obtain ⟨v, pos'⟩ := vp
      have hlt := hadv pos v pos' hp
      have hposlen : pos < len := by
        by_contra hc
        obtain ⟨e, he⟩ := hbound pos (by omega)
        rw [hp] at he; cases he
      obtain ⟨vs, pos'', heq, hch⟩ := ih pos' (acc ++ [v]) (by omega) (by omega)
      refine ⟨v :: vs, pos'', ?_, .step hp hch⟩
      simp [tryParseVecAux, hp, heq]

/-- Claim C7: parsing `Option<T>` never errors — a failing inner parse
restores the snapshot position and yields `None`, a succeeding one yields
`Some` at the advanced position; and the `Vec<T>` loop (under the
progress and failure-beyond-the-input hypotheses every token-consuming
field parser satisfies) terminates without error, returning exactly the
chain of successful parses with the cursor restored to the position of
the last success. -/
theorem C7_option_vec_combinators :
    (∀ (α : Type) (p : FieldParser α) (pos : Nat) (e : ParseError),
        p pos = .error e → tryParseOption p pos = .ok (none, pos)) ∧
    (∀ (α : Type) (p : FieldParser α) (pos : Nat) (v : α) (pos' : Nat),
        p pos = .ok (v, pos') → tryParseOption p pos = .ok (some v, pos')) ∧
    (∀ (α : Type) (p : FieldParser α) (len : Nat),
        (∀ pos v pos', p pos = .ok (v, pos') → pos < pos') →
        (∀ pos, len ≤ pos → ∃ e, p pos = .error e) →
        ∀ pos fuel, 1 ≤ fuel → len + 2 ≤ fuel + pos →
          ∃ vs pos', tryParseVec p fuel pos = some (vs, pos') ∧
            VecChain p pos vs pos') := by
  refine ⟨?_, ?_, ?_⟩
  · intro α p pos e hp; simp [tryParseOption, hp]
  · intro α p pos v pos' hp; simp [tryParseOption, hp]
  · intro α p len hadv hbound pos fuel h1 h2
    obtain ⟨vs, pos', heq, hch⟩ := tryParseVecAux_spec p len hadv hbound fuel pos [] h1 h2
    exact ⟨vs, pos', by simpa [tryParseVec] using heq, hch⟩

/-- Once the EOF flag is set, every remaining field reports `None`. -/
theorem partialRunAux_eof {α : Type} : ∀ (fs : List (FieldParser α)) (pos posn : Nat),
    partialRunAux fs pos true posn = .ok (fs.map (fun _ => none), posn) := by
  intro fs
  induction fs with
  | nil => intro pos posn; rfl
  | cons f t ih => intro pos posn; simp [partialRunAux, ih, Except.map]

/-- A successful partial run satisfies the ordered-fields description. -/
theorem partialRunAux_spec {α : Type} : ∀ (fields : List (FieldParser α)) (pos posn : Nat)
    (out : List (Option α)) (c : Nat),
    partialRunAux fields pos false posn = .ok (out, c) → PartialSpec fields pos out := by
  intro fields
  induction fields with
  | nil =>
    intro pos posn out c h
    simp [partialRunAux] at h
    rw [h.1]
    exact .nil
  | cons f t ih =>
    intro pos posn out c h
    simp only [partialRunAux, if_neg (by simp : ¬(false = true))] at h
    cases hp : f pos with
    | ok vp =>
      obtain ⟨v, pos'⟩ := vp
      rw [hp] at h
      simp only [] at h
      cases hrec : partialRunAux t pos' false (posn + 1) with
      | ok r =>
        rw [hrec] at h
        simp [Except.map] at h
        exact h.1 ▸ (PartialSpec.ok hp (ih pos' (posn+1) r.1 r.2 (by rw [hrec])))
      | error e => rw [hrec] at h; simp [Except.map] at h
    | error e =>
      rw [hp] at h
      simp only [] at h
      by_cases he : reasonHasEOF e = true
      · rw [if_pos he] at h
        rw [partialRunAux_eof] at h
        simp [Except.map] at h
        have := @PartialSpec.eofStop _ _ t _ _ hp he
        rw [List.map_const'] at this
        exact h.1 ▸ this
      · rw [if_neg he] at h
        cases h
/-- An ordered-fields outcome is `Some` on a prefix and `None` after. -/
theorem PartialSpec_prefix {α : Type} {fields : List (FieldParser α)} {pos : Nat}
    {out : List (Option α)} (h : PartialSpec fields pos out) :
    ∃ k, (∀ x ∈ out.take k, x.isSome = true) ∧ (∀ x ∈ out.drop k, x = none) := by
  induction h with
  | nil => exact ⟨0, by simp, by simp⟩
  | ok hp _ ih =>
    obtain ⟨k, h1, h2⟩ := ih
    exact ⟨k + 1, by simpa using h1, by simpa using h2⟩
  | eofStop hp he =>
    refine ⟨0, by simp, ?_⟩
    intro x hx
    simp only [List.drop_zero, List.mem_cons, List.mem_map] at hx
    rcases hx with h1 | ⟨a, _, h1⟩
    · exact h1
    · exact h1.symm

/-- A hard failure in the walk is returned as that error. -/
theorem errAt_run {α : Type} {fields : List (FieldParser α)} {pos : Nat} {e : ParseError}
    (h : ErrAt fields pos e) : ∀ posn, partialRunAux fields pos false posn = .error e := by
  induction h with
  | here hp hne =>
    intro posn
    simp [partialRunAux, hp, hne]
  | there hp _ ih =>
    intro posn
    simp [partialRunAux, hp, ih (posn + 1), Except.map]

/-- Claim C2: a successful partial parse satisfies the ordered-fields
description — fields succeed in declaration order until the first EOF
failure, which makes that field and every later one `None` (so the `Some`
fields are a prefix in declaration order) — and a non-EOF field failure
after a succeeding prefix makes the partial parse return that error
instead of a record. -/
theorem C2_partial_parse_monotone :
    (∀ (α : Type) (fields : List (FieldParser α)) (pos : Nat)
        (out : List (Option α)) (c : Nat),
        partialRun fields pos = .ok (out, c) →
        PartialSpec fields pos out ∧
        ∃ k, (∀ x ∈ out.take k, x.isSome = true) ∧ (∀ x ∈ out.drop k, x = none)) ∧
    (∀ (α : Type) (fields : List (FieldParser α)) (pos : Nat) (e : ParseError),
        ErrAt fields pos e → partialRun fields pos = .error e) := by
  constructor
  · intro α fields pos out c h
    have hs := partialRunAux_spec fields pos 0 out c h
    exact ⟨hs, PartialSpec_prefix hs⟩
  · intro α fields pos e h
    exact errAt_run h 0


/-- Claim C5: `to_number` parses a leading float, then matches the
engineering suffix case-insensitively in the source's alternation order,
in which `meg` and `mil` come before their prefix `m`, ignoring trailing
unit letters: `1meg` is 1e6, `1m` is 1e-3, `1MEG` is 1e6 again, `1mil`
is 2.54e-5, and `2.5kOhm` is 2500. -/
theorem C5_suffix_precedence :
    (to_number "1meg").map DecNum.val = some 1000000 ∧
    (to_number "1m").map DecNum.val = some (1/1000) ∧
    (to_number "1MEG").map DecNum.val = some 1000000 ∧
    (to_number "1mil").map DecNum.val = some (254/10000000) ∧
    (to_number "2.5kOhm").map DecNum.val = some 2500 ∧
    suffixTags.map Prod.snd = ["t".toList, "g".toList, "meg".toList, "k".toList,
      "mil".toList, "m".toList, "u".toList, "n".toList, "p".toList, "f".toList,
      "a".toList] := by
  refine ⟨?_, ?_, ?_, ?_, ?_, by decide⟩
  · have h : to_number "1meg" = some (1, 6) := by decide
    rw [h]; simp [DecNum.val]; norm_num
  · have h : to_number "1m" = some (1, -3) := by decide
    rw [h]; simp [DecNum.val]; norm_num
  · have h : to_number "1MEG" = some (1, 6) := by decide
    rw [h]; simp [DecNum.val]; norm_num
  · have h : to_number "1mil" = some (254, -7) := by decide
    rw [h]; simp [DecNum.val]; norm_num
  · have h : to_number "2.5kOhm" = some (25, 2) := by decide
    rw [h]; simp [DecNum.val]; norm_num

/-- Claim C6 (amended): `**` is right-associative — `{2**3**2}` parses
with the nested power on the right — and the mul/div, add/sub, bitwise
and, xor and or tiers fold iteratively to the left, as `{2*3/4}`,
`{1-2-3}`, `{1&2&3}`, `{1^2^3}` and `{1|2|3}` show; the comparison and
equality tiers accept a single operator application, as `{a<b}` and
`{a==b}` show (they do not iterate; see the counterexample). -/
theorem C6_operator_associativity :
    (∃ a b c, parseNumber 50 (toks "{2**3**2}") 0 =
      .ok (.Expr (.mk (.Base (.Base (.Base (.Base (.Base (.Base (.Base (.Base
        (.Pow a (.Pow b c))))))))))), 7)) ∧
    (∃ a b c, parseNumber 50 (toks "{2*3/4}") 0 =
      .ok (.Expr (.mk (.Base (.Base (.Base (.Base (.Base (.Base (.Base
        (.Div (.Mul (.Base a) b) c))))))))), 7)) ∧
    (∃ a b c, parseNumber 50 (toks "{1-2-3}") 0 =
      .ok (.Expr (.mk (.Base (.Base (.Base (.Base (.Base (.Base
        (.Sub (.Sub (.Base a) b) c)))))))), 7)) ∧
    (∃ a b c, parseNumber 50 (toks "{1&2&3}") 0 =
      .ok (.Expr (.mk (.Base (.Base (.Base (.Base (.Base
        (.And (.And (.Base a) b) c))))))), 7)) ∧
    (∃ a b c, parseNumber 50 (toks "{1^2^3}") 0 =
      .ok (.Expr (.mk (.Base (.Base (.Base (.Base
        (.Xor (.Xor (.Base a) b) c)))))), 7)) ∧
    (∃ a b c, parseNumber 50 (toks "{1|2|3}") 0 =
      .ok (.Expr (.mk (.Base (.Base (.Base
        (.Or (.Or (.Base a) b) c))))), 7)) ∧
    (∃ a b, parseNumber 50 (toks "{a<b}") 0 =
      .ok (.Expr (.mk (.Base (.Base (.Lt a b)))), 5)) ∧
    (∃ a b, parseNumber 50 (toks "{a==b}") 0 =
      .ok (.Expr (.mk (.Base (.Eq a b))), 5)) :=
  ⟨⟨_, _, _, rfl⟩, ⟨_, _, _, rfl⟩, ⟨_, _, _, rfl⟩, ⟨_, _, _, rfl⟩,
   ⟨_, _, _, rfl⟩, ⟨_, _, _, rfl⟩, ⟨_, _, rfl⟩, ⟨_, _, rfl⟩⟩

/-- Counterexample to C6 as stated: the comparison and equality tiers do
not iterate, so `{a<b<c}` and `{a==b==c}` are rejected rather than
accepted with left-associated trees. -/
theorem C6_chained_comparison_counterexample :
    parseNumber 50 (toks "{a<b<c}") 0 =
      .error (ParseError.unexpected "\x7d" "<" (some (4, 5))) ∧
    (∃ e, parseNumber 50 (toks "{a==b==c}") 0 = .error e) :=
  ⟨rfl, ⟨_, rfl⟩⟩


/-- The instruction loop only ever adds paths to the visit set: whatever
was visited when it started is still visited when it finishes. -/
theorem workInstrsWith_mono {fs : PathT → Option (Except ParseError Program)}
    {w : List PathT → PathT → Option (Except WorkErr (Program × List PathT))}
    (hw : ∀ v f p v', w v f = some (.ok (p, v')) → v ⊆ v') :
    ∀ (insts : List Instruction) (visit : List PathT) (filename : PathT)
      (out : List Instruction) (visit' : List PathT),
      workInstrsWith fs w visit filename insts = some (.ok (out, visit')) →
      visit ⊆ visit' := by
  intro insts
  induction insts with
  | nil => intro v f out v' h; simp [workInstrsWith] at h; simp [h.2]
  | cons i rest ih =>
    intro v f out v' h
    simp only [workInstrsWith] at h
    split at h
    · split at h <;> try cases h
      rename_i prog v1 hw1
      split at h <;> try cases h
      rename_i out1 hr
      exact (hw _ _ _ _ hw1).trans (ih _ _ _ _ hr)
    · split at h <;> try cases h
      rename_i prog v1 hw1
      split at h <;> try cases h
      rename_i out1 hr
      exact (hw _ _ _ _ hw1).trans (ih _ _ _ _ hr)
    · split at h <;> try cases h
      rename_i out1 hr
      exact ih _ _ _ _ hr

/-- A completed expansion keeps every previously visited path visited and
leaves its own file marked visited: the visit set records completed
files, not the current inclusion path. -/
theorem work_mono {fs : PathT → Option (Except ParseError Program)} :
    ∀ (fuel : Nat) (visit : List PathT) (filename : PathT) (prog : Program)
      (visit' : List PathT),
      work fs fuel visit filename = some (.ok (prog, visit')) →
      visit ⊆ visit' ∧ filename ∈ visit' := by
  intro fuel
  induction fuel with
  | zero => intro v f p v' h; cases h
  | succ fuel ih =>
    intro v f p v' h
    simp only [work] at h
    split at h
    · cases h
    · rename_i hnv
      split at h <;> try cases h
      rename_i prog0 hfs
      split at h <;> try cases h
      rename_i out1 hloop
      have hmono := workInstrsWith_mono
        (fun v f p v' hh => (ih v f p v' hh).1) prog0.instructions (f :: v) f out1 v' hloop
      constructor
      · exact fun a ha => hmono (List.mem_cons_of_mem _ ha)
      · exact hmono (List.mem_cons_self _ _)

/-- Claim C8 (amended): `Worker::work` rejects a file exactly when it is
in the visit set, and the visit set only ever grows — a path visited
before a sub-expansion is still visited after it completes, and the
completed file itself stays in the set.  A previously expanded file is
therefore rejected on any later include, whether or not it is still on
the current inclusion path (see the counterexample), and the rejection is
the returned error for the whole expansion, not a truncation. -/
theorem C8_include_revisit :
    (∀ (fs : PathT → Option (Except ParseError Program)) (fuel : Nat)
        (visit : List PathT) (filename : PathT),
        visit.contains filename = true →
        work fs (fuel + 1) visit filename =
          some (.error (.recursive filename))) ∧
    (∀ (fs : PathT → Option (Except ParseError Program)) (fuel : Nat)
        (visit : List PathT) (filename : PathT) (prog : Program)
        (visit' : List PathT),
        work fs fuel visit filename = some (.ok (prog, visit')) →
        visit ⊆ visit' ∧ filename ∈ visit') := by
  constructor
  · intro fs fuel visit filename h
    simp only [work]
    rw [if_pos h]
  · intro fs fuel visit filename prog visit' h
    exact work_mono fuel visit filename prog visit' h

/-- Counterexample to C8 as stated: in `fsDiamond` the root `/r` includes
`/d` twice in sequence; when the second include runs, the expansion of
`/d` has already completed and `/d` is not on the current inclusion path,
yet the expansion is rejected with the recursive-include error. -/
theorem C8_completed_reinclude_counterexample :
    work fsDiamond 3 [] ["/r"] = some (.error (.recursive ["/d"])) ∧
    work fsDiamond 2 [] ["/d"] =
      some (.ok ({ name := none, instructions := [.command (.Op {})] }, [["/d"]])) :=
  ⟨rfl, rfl⟩


/-- A run of continuation lines with nothing after it is folded whole
into the accumulated line, each with its leading `+` dropped. -/
theorem mergeLinesAux_allCont :
    ∀ (ys : List (List Atom)) (acc : List Atom), (∀ y ∈ ys, isCont y = true) →
      mergeLinesAux acc ys = [acc ++ ys.flatMap (fun y => y.drop 1)] := by
  intro ys
  induction ys with
  | nil => intro acc h; simp [mergeLinesAux]
  | cons y ys ih =>
    intro acc h
    rw [mergeLinesAux, if_pos (h y (List.mem_cons_self _ _)),
      ih _ (fun z hz => h z (List.mem_cons_of_mem _ hz))]
    simp

/-- A run of continuation lines followed by a non-continuation line is
folded into the accumulated line, and merging restarts at that line. -/
theorem mergeLinesAux_split (l : List Atom) (hnc : isCont l = false)
    (rest : List (List Atom)) :
    ∀ (ys : List (List Atom)) (acc : List Atom), (∀ y ∈ ys, isCont y = true) →
      mergeLinesAux acc (ys ++ l :: rest) =
        (acc ++ ys.flatMap (fun y => y.drop 1)) :: mergeLinesAux l rest := by
  intro ys
  induction ys with
  | nil =>
    intro acc h
    rw [List.nil_append, mergeLinesAux, if_neg (by simp [hnc])]
    simp
  | cons y ys ih =>
    intro acc h
    rw [List.cons_append, mergeLinesAux, if_pos (h y (List.mem_cons_self _ _)),
      ih _ (fun z hz => h z (List.mem_cons_of_mem _ hz))]
    simp

/-- Claim C4 (amended): every line after the first that starts with a
`+` Atom is appended, leading `+` dropped, onto the preceding logical
line, for any number of consecutive continuation lines, and the claim's
example merges as stated — but only lines with a preceding line are
merged: the very first line is delivered as it is even when it starts
with `+` (see the counterexample). -/
theorem C4_continuation_merging :
    (∀ (acc : List Atom) (ys : List (List Atom)),
        (∀ y ∈ ys, isCont y = true) →
        mergeLinesAux acc ys = [acc ++ ys.flatMap (fun y => y.drop 1)]) ∧
    (∀ (acc l : List Atom) (ys rest : List (List Atom)),
        (∀ y ∈ ys, isCont y = true) → isCont l = false →
        mergeLinesAux acc (ys ++ l :: rest) =
          (acc ++ ys.flatMap (fun y => y.drop 1)) :: mergeLinesAux l rest) ∧
    (tokenize "R1 1 2\n+ 1k").map (List.map Atom.raw) =
      (tokenize "R1 1 2 1k").map (List.map Atom.raw) ∧
    (tokenize "R1 1 2\n+ 1k\n+ 2k").map (List.map Atom.raw) =
      [["R1", "1", "2", "1k", "2k"]] := by
  refine ⟨fun acc ys h => mergeLinesAux_allCont ys acc h,
    fun acc l ys rest h hnc => mergeLinesAux_split l hnc rest ys acc h, by decide, by decide⟩

/-- Counterexample to C4 as stated: a continuation line with no
preceding line is delivered to the parser unchanged — its Atom sequence
still begins with the `+` token. -/
theorem C4_leading_continuation_counterexample :
    (tokenize "+ 1k").map (List.map Atom.raw) = [["+", "1k"]] ∧
    isCont (toks "+ 1k") = true := by decide

/-- Claim C9: the Command dispatcher reaches a literal `todo!()` — a
panic, neither a parsed value nor a `ParseError` — when the line's first
token uppercases to `.FUNC` or `.MC`; every recognized dot-command name
is dispatched to its sub-grammar, and the remaining tokens are rejected
with an error outcome. -/
theorem C9_command_dispatch_todo :
    commandHead ".FUNC" = .crash ∧ commandHead ".func" = .crash ∧
    commandHead ".MC" = .crash ∧ commandHead ".mc" = .crash ∧
    (∀ s ∈ handledCommandNames, commandHead s = .handled s) ∧
    commandHead ".BOGUS" = .unknownCommand ∧
    commandHead "R1" = .notACommand := by decide

/-- Claim C10: the title line.  A first line of exactly one token whose
raw text does not start with `.` is split off as the program name; a
one-token first line starting with `.`, a first line with any other
number of tokens, and an empty input all leave the name `none` and the
line list intact; and a successful `SpiceFileParser::parse` returns
exactly the split-off name as `Program.name`, parsing only the remaining
lines into the instruction list. -/
theorem C10_title_line :
    (∀ (a : Atom) (vec : List (List Atom)), strStartsWith a.raw "." = false →
        titleSplit ([a] :: vec) = (some { atom := a }, vec)) ∧
    (∀ (a : Atom) (vec : List (List Atom)), strStartsWith a.raw "." = true →
        titleSplit ([a] :: vec) = (none, [a] :: vec)) ∧
    (∀ (l : List Atom) (vec : List (List Atom)), l.length ≠ 1 →
        titleSplit (l :: vec) = (none, l :: vec)) ∧
    titleSplit [] = (none, []) ∧
    (∀ (pl : List Atom → Except ParseError Instruction) (vec : List (List Atom))
        (prog : Program), SpiceFileParser.parse pl vec = some (.ok prog) →
        prog.name = (titleSplit vec).1 ∧
        ∃ insts, parseLinesWith pl (titleSplit vec).2 = some (.ok insts) ∧
          assemble insts = some (.ok prog.instructions)) := by
  refine ⟨?_, ?_, ?_, rfl, ?_⟩
  · intro a vec h; simp [titleSplit, h]
  · intro a vec h; simp [titleSplit, h]
  · intro l vec h
    match l with
    | [] => rfl
    | [a] => exact absurd rfl h
    | a :: b :: t => rfl
  · intro pl vec prog h
    unfold SpiceFileParser.parse at h
    rcases hts : titleSplit vec with ⟨name, rest⟩
    rw [hts] at h
    simp only [] at h
    split at h <;> try cases h
    rename_i insts hpl
    split at h <;> try cases h
    rename_i is hassemble
    exact ⟨rfl, insts, hpl, hassemble⟩


/-- An instruction that is neither `.SUBCKT` nor `.ENDS` is appended to
the top of the body stack. -/
theorem assembleRun_other {i : Instruction} (h : isOtherI i = true)
    (top : List Instruction) (stack : List (List Instruction))
    (subckts : List SubcktCommand) (rest : List Instruction) :
    assembleRun (top :: stack) subckts (i :: rest) =
      assembleRun ((top ++ [i]) :: stack) subckts rest := by
  cases i with
  | component c => rfl
  | command c => cases c <;> first | rfl | simp [isOtherI] at h

/-- An `.ENDS` whose name matches the innermost open subckt pops the
body stack and pushes the folded `Subckt` instruction. -/
theorem assembleRun_ends_ok {ec : EndsCommand} {sc : SubcktCommand}
    (hok : ∀ n, ec.name = some n → Name.beqRaw n sc.name = true)
    (body top : List Instruction) (stack : List (List Instruction))
    (subckts : List SubcktCommand) (r : List Instruction) :
    assembleRun (body :: top :: stack) (sc :: subckts) (.command (.Ends ec) :: r) =
      assembleRun ((top ++ [.command (.Subckt (sc.withInstructions body))]) :: stack)
        subckts r := by
  obtain ⟨nm⟩ := ec
  cases nm with
  | none => rfl
  | some n =>
    have hb := hok n rfl
    simp only [assembleRun, hb, Bool.not_true, Bool.false_eq_true, if_false]

/-- Running the folding loop over a balanced block appends its folded
form to the top of the body stack and continues. -/
theorem assembleRun_flat {f p : List Instruction} (h : FlatList f p) :
    ∀ (top : List Instruction) (stack : List (List Instruction))
      (subckts : List SubcktCommand) (rest : List Instruction),
      assembleRun (top :: stack) subckts (f ++ rest) =
        assembleRun ((top ++ p) :: stack) subckts rest := by
  induction h with
  | nil => intro top stack subckts rest; simp
  | consOther hi _ ih =>
    intro top stack subckts rest
    rw [List.cons_append, assembleRun_other hi, ih]
    simp
  | consSubckt hok _ _ ihb ihr =>
    intro top stack subckts rest
    rw [List.cons_append]
    show assembleRun ([] :: top :: stack) _ _ = _
    rw [List.append_assoc, List.cons_append, ihb, List.nil_append,
      assembleRun_ends_ok hok, ihr]
    simp

/-- A defect-free instruction list assembles without error. -/
theorem assembleRun_scanOk :
    ∀ (f : List Instruction) (stack : List (List Instruction))
      (subckts : List SubcktCommand),
      stack.length = subckts.length + 1 →
      scanDefect (subckts.map SubcktCommand.name) f = none →
      ∃ p, assembleRun stack subckts f = some (.ok p) := by
  intro f
  induction f with
  | nil =>
    intro stack subckts hlen hscan
    cases subckts with
    | cons s ss => simp [scanDefect] at hscan
    | nil =>
      match stack, hlen with
      | [b], _ => exact ⟨b, rfl⟩
  | cons i rest ih =>
    intro stack subckts hlen hscan
    match stack, hlen with
    | top :: stack', hlen =>
      cases i with
      | component c =>
        rw [assembleRun_other (by rfl)]
        exact ih _ _ (by simpa using hlen) hscan
      | command c =>
        cases c
        case Subckt sc =>
          exact ih ([] :: top :: stack') (sc :: subckts) (by simpa using hlen) hscan
        case Ends ec =>
          cases subckts with
          | nil => simp [scanDefect] at hscan
          | cons sc ss =>
            obtain ⟨nm⟩ := ec
            match stack', hlen with
            | top2 :: stack'', hlen =>
              cases nm with
              | none =>
                rw [assembleRun_ends_ok (fun n hn => by cases hn)]
                exact ih _ _ (by simpa using hlen) hscan
              | some m =>
                simp only [List.map_cons, scanDefect] at hscan
                cases hbeq : Name.beqRaw m sc.name with
                | false => rw [hbeq] at hscan; simp at hscan
                | true =>
                  rw [hbeq] at hscan; simp at hscan
                  rw [assembleRun_ends_ok (fun n hn => by cases hn; exact hbeq)]
                  exact ih _ _ (by simpa using hlen) hscan
        all_goals
          rw [assembleRun_other (by rfl)]
          exact ih _ _ (by simpa using hlen) hscan

/-- A defective instruction list assembles to the matching error. -/
theorem assembleRun_defect :
    ∀ (f : List Instruction) (d : Defect) (stack : List (List Instruction))
      (subckts : List SubcktCommand),
      stack.length = subckts.length + 1 →
      scanDefect (subckts.map SubcktCommand.name) f = some d →
      assembleRun stack subckts f = some (.error (defectError d)) := by
  intro f
  induction f with
  | nil =>
    intro d stack subckts hlen hscan
    cases subckts with
    | nil => simp [scanDefect] at hscan
    | cons s ss =>
      simp [scanDefect] at hscan
      match stack, hlen with
      | b :: b2 :: stack', _ =>
        rw [← hscan]
        rfl
  | cons i rest ih =>
    intro d stack subckts hlen hscan
    match stack, hlen with
    | top :: stack', hlen =>
      cases i with
      | component c =>
        rw [assembleRun_other (by rfl)]
        exact ih _ _ _ (by simpa using hlen) hscan
      | command c =>
        cases c
        case Subckt sc =>
          exact ih _ ([] :: top :: stack') (sc :: subckts) (by simpa using hlen) hscan
        case Ends ec =>
          cases subckts with
          | nil =>
            simp [scanDefect] at hscan
            rw [← hscan]
            rfl
          | cons sc ss =>
            obtain ⟨nm⟩ := ec
            match stack', hlen with
            | top2 :: stack'', hlen =>
              cases nm with
              | none =>
                rw [assembleRun_ends_ok (fun n hn => by cases hn)]
                exact ih _ _ _ (by simpa using hlen) hscan
              | some m =>
                simp only [List.map_cons, scanDefect] at hscan
                cases hbeq : Name.beqRaw m sc.name with
                | false =>
                  rw [hbeq] at hscan
                  simp at hscan
                  rw [← hscan]
                  simp only [assembleRun, hbeq, Bool.not_false, if_true]
                  rfl
                | true =>
                  rw [hbeq] at hscan; simp at hscan
                  rw [assembleRun_ends_ok (fun n hn => by cases hn; exact hbeq)]
                  exact ih _ _ _ (by simpa using hlen) hscan
        all_goals
          rw [assembleRun_other (by rfl)]
          exact ih _ _ _ (by simpa using hlen) hscan

/-- Claim C1: the subckt folding stage.  A balanced instruction list
(`FlatList f p`: every `.SUBCKT` has its matching-name `.ENDS`, and `p`
replaces each pair by the single `Subckt` instruction carrying the folded
body between the pair) assembles to exactly `p`; every defect-free list
assembles to some `Ok`; and a list whose first defect is an unmatched
`.ENDS`, a name mismatch with the innermost open `.SUBCKT`, or an
unclosed `.SUBCKT` at the end of input assembles to the corresponding
`ParseError` (`Unmatched .ENDS` for the first two, `Missing .ENDS for
.SUBCKT` for the last). -/
theorem C1_subckt_folding :
    (∀ (f p : List Instruction), FlatList f p → assemble f = some (.ok p)) ∧
    (∀ (f : List Instruction), scanDefect [] f = none →
        ∃ p, assemble f = some (.ok p)) ∧
    (∀ (f : List Instruction) (d : Defect), scanDefect [] f = some d →
        assemble f = some (.error (defectError d))) := by
  refine ⟨?_, ?_, ?_⟩
  · intro f p h
    have := assembleRun_flat h [] [] [] []
    rw [List.append_nil] at this
    rw [assemble, this]
    rfl
  · intro f h
    exact assembleRun_scanOk f [[]] [] rfl h
  · intro f d h
    exact assembleRun_defect f d [[]] [] rfl h

end Spice
